import Mathlib

/-!
Verification development for the MASQ Node repository, covering the payment
adjuster (`node/src/accountant/payment_adjuster.rs`) and the PCP automap layer
(`automap/src/comm_layer/pcp.rs`).

Modelling conventions:
* Rust `u128` values are represented as `Nat`; every arithmetic operation of
  the source that can panic (checked ops followed by `expect`, plain ops that
  overflow under debug-build semantics, division by zero, failed casts,
  `todo!()`) is modelled in the `RuPanic` error monad with a distinct panic
  kind, so that a panic is observable and distinguishable from a normal result.
* `U256` values are also `Nat`; the `as_u128`/`as_u64` conversions panic above
  the corresponding bound, exactly as `primitive-types` does.
* `SystemTime` values are whole seconds (the source immediately converts the
  elapsed duration with `as_secs`, so second granularity is all it observes).
* Rust's stable `sorted_by` is modelled by a structurally recursive stable
  insertion sort (`sortDescBy`); a stable sort for a total preorder is
  extensionally unique, so this is the same function as the source's sort.
-/

/-- Panic kinds used to model Rust aborts: arithmetic overflow / underflow
(debug-build semantics of unchecked ops, and checked ops whose `None` is
`expect`ed), division by zero, failed `expect`/casts, a literal `todo!()`
macro in the source, and exhaustion of the recursion fuel of the model. -/
inductive RuPanic where
  | overflow
  | underflow
  | divByZero
  | expectFail
  | todoHit
  | fuelOut
deriving DecidableEq, Repr

/-- Computations in the payment adjuster that can panic. -/
abbrev RuM (α : Type) : Type := Except RuPanic α

/-- One more than the largest `u128` value. -/
def U128_LIMIT : Nat := 2 ^ 128

/-- One more than the largest `u64` value. -/
def U64_LIMIT : Nat := 2 ^ 64

/-- One more than the largest `u16` value. -/
def U16_LIMIT : Nat := 2 ^ 16

/-- `u128` addition; panics on overflow (both for `checked_add(..).expect`
and for plain `+` under debug-build semantics). -/
def chkAdd (a b : Nat) : RuM Nat :=
  if a + b < U128_LIMIT then pure (a + b) else .error .overflow

/-- `u128` multiplication; panics on overflow. -/
def chkMul (a b : Nat) : RuM Nat :=
  if a * b < U128_LIMIT then pure (a * b) else .error .overflow

/-- `u128` exponentiation (`pow` / `checked_pow(..).expect`); panics on
overflow. -/
def chkPow (a n : Nat) : RuM Nat :=
  if a ^ n < U128_LIMIT then pure (a ^ n) else .error .overflow

/-- `u128` subtraction; panics on underflow (debug-build semantics of the
unchecked `-`). -/
def chkSub (a b : Nat) : RuM Nat :=
  if b ≤ a then pure (a - b) else .error .underflow

/-- `u128` division: `checked_div(..).expect` and plain `/` both panic
exactly when the divisor is zero. -/
def chkDiv (a b : Nat) : RuM Nat :=
  if b = 0 then .error .divByZero else pure (a / b)

/-- `iter().sum::<u128>()` (panics on overflow under debug semantics). -/
def sumRu : List Nat → RuM Nat
  | [] => pure 0
  | x :: xs => do chkAdd x (← sumRu xs)

/-- Monadic map preserving the source's in-order evaluation (`map` + `collect`
over a Rust iterator). -/
def mapRu {α β : Type} (f : α → RuM β) : List α → RuM (List β)
  | [] => pure []
  | x :: xs => do
    let y ← f x
    let ys ← mapRu f xs
    pure (y :: ys)

/-- Monadic filter preserving the source's in-order evaluation (`filter` +
`collect` over a Rust iterator). -/
def filterRu {α : Type} (p : α → RuM Bool) : List α → RuM (List α)
  | [] => pure []
  | x :: xs => do
    let b ← p x
    let ys ← filterRu p xs
    pure (if b then x :: ys else ys)

/-- `sub_lib::wallet::Wallet`, reduced to an identity; the adjuster only
clones, compares and collects wallets. -/
structure Wallet where
  id : Nat
deriving DecidableEq, Repr

/-- `payable_dao::PayableAccount`. `last_paid_timestamp` is seconds since an
arbitrary epoch; `pending_payable_opt` is carried but never read by the
adjuster. -/
structure PayableAccount where
  wallet : Wallet
  balance_wei : Nat
  last_paid_timestamp : Nat
  pending_payable_opt : Option Nat := none
deriving DecidableEq, Repr

/-- Fuel-driven digit count; the fuel only needs to exceed the digit count,
which `num + 1` always does. -/
def log10Go : Nat → Nat → Nat
  | 0, _ => 1
  | fuel + 1, n => if n < 10 then 1 else 1 + log10Go fuel (n / 10)

/-- `log_10` from `payment_adjuster.rs`: the number of decimal digits of
`num`, via repeated division by 10 (`successors(Some(num), ..).count()`);
returns 1 for 0. -/
def log_10 (num : Nat) : Nat := log10Go (num + 1) num

/-- Fuel-driven search for the least `r ≥ start` with `n ≤ r * r`. -/
def ceilSqrtFrom (n : Nat) : Nat → Nat → Nat
  | 0, r => r
  | fuel + 1, r => if n ≤ r * r then r else ceilSqrtFrom n fuel (r + 1)

/-- Models `(elapsed_sec as f64).sqrt().ceil() as u128` from the age
criterion: the least `r` with `n ≤ r * r`, i.e. `⌈√n⌉`. The `f64` route of
the source computes the same value for every `n < 2^52`: `f64` square root is
correctly rounded, integers up to `2^53` are exactly representable, and for
`n < 2^52` the distance from `√n` to the nearest integer it is not equal to
exceeds the half-ulp `2^-28` at that magnitude, so rounding then `ceil`
cannot cross an integer boundary. (For astronomically large ages, ~1.4·10^8
years, the two can differ; no claim exercises that territory.) -/
def ceilSqrt (n : Nat) : Nat := ceilSqrtFrom n (n + 1) 0

/-- Elapsed seconds `now.duration_since(account.last_paid_timestamp)`; the
source `expect`s, panicking when the timestamp lies in the future. -/
def elapsedSecs (now : Nat) (account : PayableAccount) : RuM Nat :=
  if account.last_paid_timestamp ≤ now then pure (now - account.last_paid_timestamp)
  else .error .expectFail

/-- The age criterion closure of `apply_criteria`:
`(elapsed_sec as u128).pow(4).checked_div(divisor).expect(..)` with
`divisor = ⌈√elapsed_sec⌉`. -/
def timeCriterion (now : Nat) (account : PayableAccount) : RuM Nat := do
  let elapsed ← elapsedSecs now account
  let divisor := ceilSqrt elapsed
  let p ← chkPow elapsed 4
  chkDiv p divisor

/-- The balance criterion closure of `apply_criteria`:
`balance_wei * (log_10 balance_wei)^3`, all checked. -/
def balanceCriterion (account : PayableAccount) : RuM Nat := do
  let digits := log_10 account.balance_wei
  let multiplier ← chkPow digits 3
  chkMul account.balance_wei multiplier

/-- The total criterion of one account: a zero start folded through the age
closure and then the balance closure, each with `checked_add`. -/
def criterionOf (now : Nat) (account : PayableAccount) : RuM Nat := do
  let t ← timeCriterion now account
  let s ← chkAdd 0 t
  let b ← balanceCriterion account
  chkAdd s b

/-- `initialize_zero_criteria` + the two criteria closures, before sorting:
each account paired with its weight, in input order. -/
def computeCriteria (now : Nat) (accounts : List PayableAccount) :
    RuM (List (Nat × PayableAccount)) :=
  mapRu (fun a => do pure ((← criterionOf now a), a)) accounts

/-- Insert into a descending-by-key sorted list, before the first element of
key ≤ the inserted key (stable: existing equal keys come from later input). -/
def insertDescBy {α : Type} (key : α → Nat) (x : α) : List α → List α
  | [] => [x]
  | y :: ys => if key y ≤ key x then x :: y :: ys else y :: insertDescBy key x ys

/-- Stable sort, descending by `key`: models Rust's stable
`sorted_by(|a, b| Ord::cmp(&key(b), &key(a)))`; a stable sort for a total
preorder is extensionally unique, so this is the source's sort. -/
def sortDescBy {α : Type} (key : α → Nat) : List α → List α
  | [] => []
  | x :: xs => insertDescBy key x (sortDescBy key xs)

/-- `sort_in_descendant_order_by_weights`. -/
def sortByWeights (l : List (Nat × PayableAccount)) : List (Nat × PayableAccount) :=
  sortDescBy (·.1) l

/-- `apply_criteria`: compute each account's weight, then sort descending by
weight (stable). -/
def apply_criteria (now : Nat) (accounts : List PayableAccount) :
    RuM (List (Nat × PayableAccount)) := do
  pure (sortByWeights (← computeCriteria now accounts))

/-- `find_decent_multiplication_coeff`:
`10^((digits(criteria_sum) -| digits(cw_balance)) + 6)`, the `pow` panicking
on `u128` overflow. -/
def find_decent_multiplication_coeff (cw_masq_balance criteria_sum : Nat) : RuM Nat := do
  let criteria_sum_digits_count := log_10 criteria_sum
  let cw_balance_digits_count := log_10 cw_masq_balance
  let smallest := criteria_sum_digits_count - cw_balance_digits_count
  chkPow 10 (smallest + 6)

/-- `ReversiblePayableAccount`. -/
structure ReversiblePayableAccount where
  adjusted_account : PayableAccount
  former_balance : Nat
deriving DecidableEq, Repr

/-- `DisqualifiedPayableAccount`. -/
structure DisqualifiedPayableAccount where
  wallet : Wallet
  proposed_adjusted_balance : Nat
  original_balance : Nat
deriving DecidableEq, Repr

/-- The proposed adjusted balance of one account inside
`recreate_accounts_with_proportioned_balances`:
`criteria_sum * proportional_fragment_of_cw_balance / multiplication_coeff`
(the multiplication is unchecked `u128`; the divisor `10^k` is never zero). -/
def proposedBalance (fragment coeff criteria_sum : Nat) : RuM Nat := do
  let x ← chkMul criteria_sum fragment
  pure (x / coeff)

/-- The per-account body of the fold in
`recreate_accounts_with_proportioned_balances`: either a kept
(`ReversiblePayableAccount`, balance overwritten with the proposal) or a
`DisqualifiedPayableAccount`. Kept iff `(original*10)/2 ≤ proposed*10`. -/
def routeOne (fragment coeff : Nat) (ca : Nat × PayableAccount) :
    RuM (ReversiblePayableAccount ⊕ DisqualifiedPayableAccount) := do
  let (criteria_sum, account) := ca
  let original_balance := account.balance_wei
  let proposed ← proposedBalance fragment coeff criteria_sum
  let lhs ← chkMul original_balance 10
  let rhs ← chkMul proposed 10
  if lhs / 2 ≤ rhs then
    pure (.inl ⟨{ account with balance_wei := proposed }, original_balance⟩)
  else
    pure (.inr ⟨account.wallet, proposed, original_balance⟩)

/-- The fold of `recreate_accounts_with_proportioned_balances`, expressed by
structural recursion (same element order, same earliest-panic behaviour as
the source's left fold that pushes to the two vectors). -/
def recreateGo (fragment coeff : Nat) :
    List (Nat × PayableAccount) →
    RuM (List ReversiblePayableAccount × List DisqualifiedPayableAccount)
  | [] => pure ([], [])
  | ca :: rest => do
    let r ← routeOne fragment coeff ca
    let (decided, disqualified) ← recreateGo fragment coeff rest
    match r with
    | .inl d => pure (d :: decided, disqualified)
    | .inr q => pure (decided, q :: disqualified)

/-- `recreate_accounts_with_proportioned_balances`. -/
def recreate_accounts_with_proportioned_balances
    (accounts_with_individual_criteria : List (Nat × PayableAccount))
    (cw_masq_balance criteria_total : Nat) :
    RuM (List ReversiblePayableAccount × List DisqualifiedPayableAccount) := do
  let coeff ← find_decent_multiplication_coeff cw_masq_balance criteria_total
  let product ← chkMul cw_masq_balance coeff
  let fragment ← chkDiv product criteria_total
  recreateGo fragment coeff accounts_with_individual_criteria

/-- `compute_totals`: the sum of balances and the sum of criteria. -/
def compute_totals (l : List (Nat × PayableAccount)) : RuM (Nat × Nat) := do
  let required_balance_total ← sumRu (l.map (·.2.balance_wei))
  let criteria_total ← sumRu (l.map (·.1))
  pure (required_balance_total, criteria_total)

/-- `check_for_prioritized_accounts_that_qualify_without_prolongation`: the
wallets whose balance ratio (shared 10_000 scaling) strictly exceeds their
criterion ratio; `None` when there are none. Divisions panic on a zero
denominator exactly as `u128` `/` does. -/
def check_for_prioritized_accounts (l : List (Nat × PayableAccount))
    (required_balance_total criteria_total : Nat) : RuM (Option (List Wallet)) := do
  let required_for_safe_math ← chkMul required_balance_total 10000
  let criteria_for_safe_math ← chkMul criteria_total 10000
  let picked ← filterRu
    (fun ca => do
      let balance_denom ← chkMul ca.2.balance_wei 10000
      let balance_ratio ← chkDiv required_for_safe_math balance_denom
      let criterion_denom ← chkMul ca.1 10000
      let criterion_ratio ← chkDiv criteria_for_safe_math criterion_denom
      pure (decide (criterion_ratio < balance_ratio)))
    l
  let accounts_to_be_prioritized := picked.map (·.2.wallet)
  if accounts_to_be_prioritized.isEmpty then pure none
  else pure (some accounts_to_be_prioritized)

/-- `DecidedPayableAccountResolution`. -/
inductive DecidedPayableAccountResolution where
  | finalize
  | revert
deriving DecidableEq, Repr

/-- The `From<(ReversiblePayableAccount, DecidedPayableAccountResolution)>`
conversion. -/
def resolveAccount (d : ReversiblePayableAccount)
    (resolution : DecidedPayableAccountResolution) : PayableAccount :=
  match resolution with
  | .finalize => d.adjusted_account
  | .revert => { d.adjusted_account with balance_wei := d.former_balance }

/-- `finalize_decided_accounts`. -/
def finalize_decided_accounts (decided : List ReversiblePayableAccount)
    (resolution : DecidedPayableAccountResolution) : List PayableAccount :=
  decided.map (resolveAccount · resolution)

/-- `AdjustmentIterationResult`. -/
structure AdjustmentIterationResult where
  decided_accounts : List PayableAccount
  remaining_accounts : List PayableAccount
  disqualified_accounts : List DisqualifiedPayableAccount
deriving DecidableEq, Repr

/-- `handle_masq_token_adjustment`. -/
def handle_masq_token_adjustment (cw_masq_balance : Nat)
    (accounts_with_individual_criteria : List (Nat × PayableAccount)) :
    RuM AdjustmentIterationResult := do
  let (required_balance_total, criteria_total) ←
    compute_totals accounts_with_individual_criteria
  match ← check_for_prioritized_accounts accounts_with_individual_criteria
      required_balance_total criteria_total with
  | some prioritized_wallets =>
    let accounts := accounts_with_individual_criteria.map (·.2)
    let (prioritized, remaining) :=
      accounts.partition (fun a => decide (a.wallet ∈ prioritized_wallets))
    pure ⟨prioritized, remaining, []⟩
  | none =>
    let (decided, disqualified) ← recreate_accounts_with_proportioned_balances
      accounts_with_individual_criteria cw_masq_balance criteria_total
    if disqualified.isEmpty then
      pure ⟨finalize_decided_accounts decided .finalize, [], []⟩
    else
      pure ⟨[], finalize_decided_accounts decided .revert, disqualified⟩

/-- `cut_back_by_gas_count_limit`. -/
def cut_back_by_gas_count_limit (weights_and_accounts : List (Nat × PayableAccount))
    (limit : Nat) : List (Nat × PayableAccount) :=
  weights_and_accounts.take limit

/-- `rebuild_accounts`. -/
def rebuild_accounts (criteria_and_accounts : List (Nat × PayableAccount)) :
    List PayableAccount :=
  criteria_and_accounts.map (·.2)

/-- `find_smallest_debt`: sort descending by balance, take the last element;
the source `expect`s on an empty input. -/
def find_smallest_debt (qualified_accounts : List PayableAccount) : RuM Nat :=
  match (sortDescBy (·.balance_wei) qualified_accounts).getLast? with
  | none => .error .expectFail
  | some a => pure a.balance_wei

/-- `AnalysisError`. The source defines only the transaction-fee variant; no
service-fee variant exists. -/
inductive AnalysisError where
  | transactionFeeBalanceBelowOneTransaction
      (one_transaction_requirement : Nat) (cw_balance : Nat)
deriving DecidableEq, Repr

/-- `check_need_of_masq_balances_adjustment` (the `Either` input collapses to
the account list in both arms). The branch where the smallest debt exceeds
the consuming-wallet balance is a literal `todo!()` in the source. -/
def check_need_of_masq_balances_adjustment (qualified_payables : List PayableAccount)
    (consuming_wallet_balance_wei : Nat) : RuM (Except AnalysisError Bool) := do
  let required_masq_sum ← sumRu (qualified_payables.map (·.balance_wei))
  if required_masq_sum ≤ consuming_wallet_balance_wei then
    pure (.ok false)
  else do
    let smallest ← find_smallest_debt qualified_payables
    if consuming_wallet_balance_wei < smallest then
      .error .todoHit
    else
      pure (.ok true)

/-- `AdjustmentCompletion`. -/
inductive AdjustmentCompletion where
  | finished (accounts_adjusted : List PayableAccount)
  | continueIt (iteration_result : AdjustmentIterationResult)
deriving DecidableEq, Repr

/-- `give_job_to_adjustment_workers`. An adjuster-level `Err` from
`check_need_of_masq_balances_adjustment` hits a `todo!()` in the source. -/
def give_job_to_adjustment_workers (gas_limitation_opt : Option Nat)
    (accounts_with_individual_criteria : List (Nat × PayableAccount))
    (cw_masq_balance_wei : Nat) : RuM AdjustmentCompletion := do
  match gas_limitation_opt with
  | some gas_limit =>
    let weighted_accounts_cut_by_gas :=
      cut_back_by_gas_count_limit accounts_with_individual_criteria gas_limit
    match ← check_need_of_masq_balances_adjustment
        (weighted_accounts_cut_by_gas.map (·.2)) cw_masq_balance_wei with
    | .ok true =>
      pure (.continueIt (← handle_masq_token_adjustment cw_masq_balance_wei
        weighted_accounts_cut_by_gas))
    | .ok false => pure (.finished (rebuild_accounts weighted_accounts_cut_by_gas))
    | .error _ => .error .todoHit
  | none =>
    pure (.continueIt (← handle_masq_token_adjustment cw_masq_balance_wei
      accounts_with_individual_criteria))

/-- `run_recursively`, with fuel for the recursion (the source recursion is
bounded by the account count; `fuelOut` never fires at adequate fuel). The
state threaded is the consuming wallet's MASQ balance: the only field of
`FinancialAndTechDetails` this function reads or rewrites
(`adjust_cw_balance_in_setup_data` keeps the gas fields untouched). The
budget shrink is the source's unchecked `u128` subtraction. -/
def run_recursively (now : Nat) :
    Nat → List PayableAccount → Nat → Option Nat → List PayableAccount →
    RuM (List PayableAccount)
  | 0, _, _, _, _ => .error .fuelOut
  | fuel + 1, already_fully_qualified_accounts, cw_masq_balance_wei,
      gas_limitation_opt, qualified_payables => do
    let sorted_accounts_with_individual_criteria ←
      apply_criteria now qualified_payables
    match ← give_job_to_adjustment_workers gas_limitation_opt
        sorted_accounts_with_individual_criteria cw_masq_balance_wei with
    | .finished accounts_adjusted => pure accounts_adjusted
    | .continueIt adjustment_result =>
      if adjustment_result.remaining_accounts.isEmpty then
        pure (already_fully_qualified_accounts ++ adjustment_result.decided_accounts)
      else do
        let subtrahend_total ←
          if adjustment_result.disqualified_accounts.isEmpty then
            sumRu (adjustment_result.decided_accounts.map (·.balance_wei))
          else
            sumRu (adjustment_result.disqualified_accounts.map (·.original_balance))
        let new_cw ← chkSub cw_masq_balance_wei subtrahend_total
        run_recursively now fuel adjustment_result.decided_accounts new_cw none
          adjustment_result.remaining_accounts

/-- `Adjustment`. -/
inductive Adjustment where
  | masqToken
  | transactionFeeFirstLaterMaybeMasq (limited_count_from_gas : Nat)
deriving DecidableEq, Repr

/-- `adjust_payments`, reduced to its account pipeline: select the gas
limitation from the decided `Adjustment` and run `run_recursively` from an
empty accumulator (building of the debug message is side-effect only). -/
def adjust_payments (adjustment : Adjustment) (cw_masq_balance_wei : Nat)
    (qualified_payables : List PayableAccount) (now fuel : Nat) :
    RuM (List PayableAccount) :=
  let gas_limitation_opt :=
    match adjustment with
    | .transactionFeeFirstLaterMaybeMasq limited_count_from_gas =>
        some limited_count_from_gas
    | .masqToken => none
  run_recursively now fuel [] cw_masq_balance_wei gas_limitation_opt
    qualified_payables

/-- `FinancialAndTechDetails`, the fields the adjuster reads. The two wallet
balances live in `ConsumingWalletBalances` in the source (`U256` values);
the gas limit and gas price are `u64`. -/
structure FinancialAndTechDetails where
  gas_currency_wei : Nat
  masq_tokens_wei : Nat
  estimated_gas_limit_per_transaction : Nat
  desired_gas_price_gwei : Nat
deriving DecidableEq, Repr

/-- Modelled from the spec: `gwei_to_wei` from `accountant/mod.rs` is not in
the provided sources; per the spec's fee arithmetic it scales a gwei amount
into wei, i.e. multiplies by 10^9 (into `U256`, which cannot overflow for a
`u128` input). -/
def gwei_to_wei (gwei : Nat) : Nat := gwei * 10 ^ 9

/-- Modelled from the spec: `wei_to_gwei` from `accountant/mod.rs` is not in
the provided sources; it divides a wei amount by 10^9 and converts to the
target integer type (`u64` here), panicking when the result does not fit. -/
def wei_to_gwei_u64 (wei : Nat) : RuM Nat :=
  if wei / 10 ^ 9 < U64_LIMIT then pure (wei / 10 ^ 9) else .error .expectFail

/-- `determine_transactions_count_limit_by_gas`. The per-transaction fee in
major units is a product of two `u64` casts multiplied in `u128` (cannot
overflow); the `U256` division's `as_u128` panics above `u128::MAX`; the
error payload truncates the major fee with `as u64`; the final count is cast
with `u16::try_from(..).expectv`, panicking at 2^16 and above. -/
def determine_transactions_count_limit_by_gas (tech_info : FinancialAndTechDetails)
    (required_transactions_count : Nat) : RuM (Except AnalysisError (Option Nat)) := do
  let transaction_fee_required_per_transaction_in_major :=
    tech_info.estimated_gas_limit_per_transaction * tech_info.desired_gas_price_gwei
  let tfrpt_in_minor := gwei_to_wei transaction_fee_required_per_transaction_in_major
  let available_balance_in_minor := tech_info.gas_currency_wei
  let quotient ← chkDiv available_balance_in_minor tfrpt_in_minor
  let limiting_max_possible_count ←
    if quotient < U128_LIMIT then pure quotient else .error .expectFail
  if limiting_max_possible_count = 0 then do
    let cw_balance ← wei_to_gwei_u64 available_balance_in_minor
    pure (.error (.transactionFeeBalanceBelowOneTransaction
      (transaction_fee_required_per_transaction_in_major % U64_LIMIT) cw_balance))
  else if required_transactions_count ≤ limiting_max_possible_count then
    pure (.ok none)
  else if limiting_max_possible_count < U16_LIMIT then
    pure (.ok (some limiting_max_possible_count))
  else
    .error .expectFail

/-- `search_for_indispensable_adjustment`: gas gate first, then the MASQ
balance check; the MASQ balance is read with `as_u128` (panics above
`u128::MAX`); an `Err` from the MASQ check hits a `todo!()`. -/
def search_for_indispensable_adjustment (qualified_payables : List PayableAccount)
    (tech_info : FinancialAndTechDetails) : RuM (Except AnalysisError (Option Adjustment)) := do
  match ← determine_transactions_count_limit_by_gas tech_info
      qualified_payables.length with
  | .error e => pure (.error e)
  | .ok (some limited_count_from_gas) =>
    pure (.ok (some (.transactionFeeFirstLaterMaybeMasq limited_count_from_gas)))
  | .ok none =>
    let masq_balance ←
      if tech_info.masq_tokens_wei < U128_LIMIT then pure tech_info.masq_tokens_wei
      else .error .expectFail
    match ← check_need_of_masq_balances_adjustment qualified_payables masq_balance with
    | .ok true => pure (.ok (some .masqToken))
    | .ok false => pure (.ok none)
    | .error _ => .error .todoHit

/-! ## PCP automap layer (`automap/src/comm_layer/pcp.rs`) -/

/-- `std::time::Duration`, at millisecond granularity (the code builds
durations only with `from_secs` / `from_millis` and compares them). -/
structure Duration where
  millis : Nat
deriving DecidableEq, Repr

/-- `Duration::from_secs`. -/
def Duration.fromSecs (secs : Nat) : Duration := ⟨secs * 1000⟩

/-- `Duration::from_millis`. -/
def Duration.fromMillis (ms : Nat) : Duration := ⟨ms⟩

/-- `Duration::as_secs` (floor). -/
def Duration.asSecs (d : Duration) : Nat := d.millis / 1000

/-- An IP address, opaque except for equality (the automap code only
compares addresses and passes them along). -/
structure IpAddr where
  raw : Nat
deriving DecidableEq, Repr

/-- `pcp_pmp_common::ChangeHandlerConfig` (its definition file is not in the
provided sources; the fields and `next_lifetime_secs` are used throughout
`pcp.rs` as shown here and documented in the spec's `MappingConfig`). -/
structure ChangeHandlerConfig where
  hole_port : Nat
  next_lifetime : Duration
  remap_interval : Duration
deriving DecidableEq, Repr

/-- `ChangeHandlerConfig::next_lifetime_secs` (`next_lifetime.as_secs() as u32`). -/
def ChangeHandlerConfig.next_lifetime_secs (c : ChangeHandlerConfig) : Nat :=
  c.next_lifetime.asSecs

/-- Modelled from the spec: `protocols::pcp::pcp_packet::ResultCode` is not
in the provided sources. The spec lists `Success`, the permanent failures
(`UnsupportedVersion`, `NotAuthorized`, `MalformedRequest`,
`UnsupportedOpcode`, `AddressMismatch`, `ExcessiveRemotePeers`) and the
transient failures (`NoResources`, `NetworkFailure`, `OutOfResources`,
`CannotProvideExternal`). -/
inductive ResultCode where
  | success
  | unsupportedVersion
  | notAuthorized
  | malformedRequest
  | unsupportedOpcode
  | addressMismatch
  | excessiveRemotePeers
  | noResources
  | networkFailure
  | outOfResources
  | cannotProvideExternal
deriving DecidableEq, Repr

/-- Modelled from the spec: `ResultCode::is_permanent`, classifying the
spec's permanent-failure list as permanent and its transient list (and
`Success`) as not. -/
def ResultCode.is_permanent : ResultCode → Bool
  | .unsupportedVersion => true
  | .notAuthorized => true
  | .malformedRequest => true
  | .unsupportedOpcode => true
  | .addressMismatch => true
  | .excessiveRemotePeers => true
  | _ => false

/-- The `format!("{:?}", result_code)` string of a result code (derived
`Debug` prints the variant name). -/
def ResultCode.debugStr : ResultCode → String
  | .success => "Success"
  | .unsupportedVersion => "UnsupportedVersion"
  | .notAuthorized => "NotAuthorized"
  | .malformedRequest => "MalformedRequest"
  | .unsupportedOpcode => "UnsupportedOpcode"
  | .addressMismatch => "AddressMismatch"
  | .excessiveRemotePeers => "ExcessiveRemotePeers"
  | .noResources => "NoResources"
  | .networkFailure => "NetworkFailure"
  | .outOfResources => "OutOfResources"
  | .cannotProvideExternal => "CannotProvideExternal"

/-- `protocols::utils::Direction`. -/
inductive Direction where
  | request
  | response
deriving DecidableEq, Repr

/-- `protocols::pcp::pcp_packet::Opcode` (the variants `pcp.rs` matches on). -/
inductive Opcode where
  | announce
  | map
  | peer
  | other (code : Nat)
deriving DecidableEq, Repr

/-- `protocols::pcp::map_packet::MapOpcodeData` (ports are `u16`, the nonce
12 bytes). -/
structure MapOpcodeData where
  mapping_nonce : List Nat
  internal_port : Nat
  external_port : Nat
  external_ip_address : IpAddr
deriving DecidableEq, Repr

/-- `protocols::pcp::pcp_packet::PcpPacket`, the fields `pcp.rs` reads from a
parsed packet. Per the parser's invariant (spec §3) a parsed response always
carries a result code, so `result_code_opt` is `none` only for requests;
`opcode_data` is the MAP payload the downcast in `compute_mapping_result`
extracts. -/
structure PcpPacket where
  direction : Direction
  opcode : Opcode
  result_code_opt : Option ResultCode
  lifetime : Nat
  opcode_data : MapOpcodeData
deriving DecidableEq, Repr

/-- `comm_layer::AutomapError`, the variants exercised by `pcp.rs`. -/
inductive AutomapError where
  | socketBindingError (msg : String)
  | socketSendError (msg : String)
  | socketReceiveError (msg : String)
  | packetParseError
  | protocolError (reason : String)
  | permanentMappingError (code : String)
  | temporaryMappingError (code : String)
deriving DecidableEq, Repr

/-- `MappingTransactorReal::compute_mapping_result`. `none` models the
`expect` panic on a response without a result code. -/
def compute_mapping_result (response : PcpPacket) :
    Option (Except AutomapError (Nat × MapOpcodeData)) := do
  let result_code ← response.result_code_opt
  if result_code ≠ ResultCode.success then
    let msg := result_code.debugStr
    if result_code.is_permanent then
      pure (.error (.permanentMappingError msg))
    else
      pure (.error (.temporaryMappingError msg))
  else
    pure (.ok (response.lifetime, response.opcode_data))

/-- The response-processing tail of
`MappingTransactorReal::mapping_transaction` (from the point where a datagram
has been received and parsed): the direction and opcode guards, then
`compute_mapping_result`, and — on success only — the write of
`next_lifetime = approved_lifetime` and `remap_interval = approved_lifetime/2`
into the caller's `ChangeHandlerConfig`. Errors leave the config untouched
(the transaction only reads it before this point). -/
def mapping_transaction_on_response (response : PcpPacket)
    (config : ChangeHandlerConfig) :
    Option (Except AutomapError (Nat × MapOpcodeData) × ChangeHandlerConfig) :=
  if response.direction ≠ Direction.response then
    some (.error (.protocolError "Map response labeled as request"), config)
  else if response.opcode ≠ Opcode.map then
    some (.error (.protocolError "Map response has an unexpected opcode"), config)
  else
    match compute_mapping_result response with
    | none => none
    | some (.error e) => some (.error e, config)
    | some (.ok (approved_lifetime, opcode_data)) =>
      some (.ok (approved_lifetime, opcode_data),
        { config with
          next_lifetime := Duration.fromSecs approved_lifetime,
          remap_interval := Duration.fromSecs (approved_lifetime / 2) })

/-- The I/O fate of one `mapping_transaction` call, abstracting the socket
stages: either some failure before a response is parsed (socket binding,
local-IP lookup, send, receive, timeout, parse — all of which return the
error with the config untouched), or a parsed response handed to the
response-processing tail. -/
inductive TransactionIo where
  | ioFailure (e : AutomapError)
  | response (packet : PcpPacket)
deriving DecidableEq, Repr

/-- `MappingTransactorReal::mapping_transaction` as a function of its I/O
fate and the caller's config. -/
def mapping_transaction_io (io : TransactionIo) (config : ChangeHandlerConfig) :
    Option (Except AutomapError (Nat × MapOpcodeData) × ChangeHandlerConfig) :=
  match io with
  | .ioFailure e => some (.error e, config)
  | .response packet => mapping_transaction_on_response packet config

/-- `PcpTransactor::add_mapping`, as a function of the transaction's I/O
fate: builds the fresh `ChangeHandlerConfig { hole_port, lifetime, 0 }`,
runs the mapping transaction against it, stores the resulting config, and
returns `approved_lifetime / 2`. -/
def add_mapping_io (io : TransactionIo) (hole_port lifetime : Nat) :
    Option (Except AutomapError Nat × ChangeHandlerConfig) :=
  let config : ChangeHandlerConfig :=
    { hole_port := hole_port,
      next_lifetime := Duration.fromSecs lifetime,
      remap_interval := Duration.fromSecs 0 }
  match mapping_transaction_io io config with
  | none => none
  | some (.error e, cfg) => some (.error e, cfg)
  | some (.ok (approved_lifetime, _), cfg) => some (.ok (approved_lifetime / 2), cfg)

/-- `comm_layer::HousekeepingThreadCommand` (the variants `thread_guts`
handles). -/
inductive HousekeepingThreadCommand where
  | stop
  | setRemapIntervalMs (ms : Nat)
deriving DecidableEq, Repr

/-- `control_layer::automap_control::AutomapChange`. -/
inductive AutomapChange where
  | newIp (addr : IpAddr)
  | error (e : AutomapError)
deriving DecidableEq, Repr

/-- The fate of `PcpPacket::try_from` on a received datagram. -/
inductive ParseOutcome where
  | parsed (packet : PcpPacket)
  | unparseable
deriving DecidableEq, Repr

/-- What `recv_from` on the announcement socket produced this iteration:
a datagram (with its parse fate), a `WouldBlock`/`TimedOut`, or some other
I/O error (logged and ignored). -/
inductive ReceiveEvent where
  | datagram (senderIp : IpAddr) (parse : ParseOutcome)
  | timedOut
  | otherIoError
deriving DecidableEq, Repr

/-- The environment of one `thread_guts` loop iteration: the receive event,
the elapsed time since the last remap as observed at the remap check, the
I/O fates of the (up to two) mapping transactions the iteration may run, and
what `rx.try_recv()` yields. -/
structure IterationInput where
  recv : ReceiveEvent
  elapsedSinceLastRemap : Duration
  announceIo : TransactionIo
  remapIo : TransactionIo
  command : Option HousekeepingThreadCommand
deriving DecidableEq, Repr

/-- Observable actions of one iteration: whether the remap-interval check
was reached, whether a remap transaction was attempted, whether the command
channel was polled, and the change-handler invocations in order. -/
structure IterationTrace where
  remapCheckExecuted : Bool
  remapAttempted : Bool
  commandPolled : Bool
  handlerCalls : List AutomapChange
deriving DecidableEq, Repr

/-- Whether the loop continues or breaks to `Stopped` after the iteration. -/
inductive LoopControl where
  | continueLoop
  | stop
deriving DecidableEq, Repr

/-- `PcpTransactor::handle_announcement`: run a full mapping transaction; on
success call the change handler with the new IP, on failure with the error.
Returns the handler calls and the (possibly updated) config. -/
def handle_announcement (io : TransactionIo) (config : ChangeHandlerConfig) :
    Option (List AutomapChange × ChangeHandlerConfig) :=
  match mapping_transaction_io io config with
  | none => none
  | some (.ok (_, opcode_data), cfg) =>
    some ([.newIp opcode_data.external_ip_address], cfg)
  | some (.error e, cfg) => some ([.error e], cfg)

/-- `PcpTransactor::remap_port`: clamp the requested lifetime to ≥ 1 second,
write it into `next_lifetime`, then run the mapping transaction. -/
def remap_port (io : TransactionIo) (config : ChangeHandlerConfig)
    (requested_lifetime : Duration) :
    Option (Except AutomapError Nat × ChangeHandlerConfig) :=
  let requested_secs := requested_lifetime.asSecs
  let requested_secs := if requested_secs < 1 then 1 else requested_secs
  let config := { config with next_lifetime := Duration.fromSecs requested_secs }
  match mapping_transaction_io io config with
  | none => none
  | some (.error e, cfg) => some (.error e, cfg)
  | some (.ok (approved_lifetime, _), cfg) => some (.ok approved_lifetime, cfg)

/-- The tail of a `thread_guts` loop iteration that a non-short-circuited
receive falls into: the remap-interval check (`last_remapped.elapsed() >
remap_interval`, with an error callback on remap failure), then the
non-blocking command poll with `Stop` / `SetRemapIntervalMs` handling. -/
def remap_then_command (input : IterationInput)
    (callsSoFar : List AutomapChange) (config : ChangeHandlerConfig) :
    Option (IterationTrace × ChangeHandlerConfig × LoopControl) := do
  -- remap-interval check
  let (remapAttempted, moreCalls, config) ←
    if config.remap_interval.millis < input.elapsedSinceLastRemap.millis then
      match remap_port input.remapIo config config.next_lifetime with
      | none => none
      | some (.ok _, cfg) => pure (true, ([] : List AutomapChange), cfg)
      | some (.error e, cfg) => pure (true, [AutomapChange.error e], cfg)
    else
      pure (false, [], config)
  -- command poll
  match input.command with
  | some .stop =>
    pure (⟨true, remapAttempted, true, callsSoFar ++ moreCalls⟩, config, .stop)
  | some (.setRemapIntervalMs ms) =>
    pure (⟨true, remapAttempted, true, callsSoFar ++ moreCalls⟩,
      { config with remap_interval := Duration.fromMillis ms }, .continueLoop)
  | none =>
    pure (⟨true, remapAttempted, true, callsSoFar ++ moreCalls⟩, config,
      .continueLoop)

/-- One iteration of the `loop` in `PcpTransactor::thread_guts`. A datagram
whose sender IP differs from the router's hits `continue`, restarting the
loop before the remap check and the command poll. Otherwise: handle a parsed
Announce packet, then fall into `remap_then_command`. -/
def thread_guts_iteration (router_ip : IpAddr) (input : IterationInput)
    (config : ChangeHandlerConfig) :
    Option (IterationTrace × ChangeHandlerConfig × LoopControl) := do
  -- receive phase
  let earlyContinue : Option (List AutomapChange × ChangeHandlerConfig) ←
    match input.recv with
    | .datagram senderIp parse =>
      if senderIp ≠ router_ip then
        pure none     -- `continue`: skip straight to the next iteration
      else
        match parse with
        | .parsed packet =>
          if packet.opcode = Opcode.announce then
            match handle_announcement input.announceIo config with
            | none => none
            | some (calls, cfg) => pure (some (calls, cfg))
          else
            pure (some ([], config))
        | .unparseable => pure (some ([], config))   -- logged, fall through
    | .timedOut => pure (some ([], config))
    | .otherIoError => pure (some ([], config))  -- logged, fall through
  match earlyContinue with
  | none =>
    pure (⟨false, false, false, []⟩, config, .continueLoop)
  | some (callsSoFar, config) =>
    remap_then_command input callsSoFar config

/-! ## Helper lemmas: the stable descending sort -/

theorem insertDescBy_perm {α : Type} (key : α → Nat) (x : α) (l : List α) :
    (insertDescBy key x l).Perm (x :: l) := by
  induction l with
  | nil => simp [insertDescBy]
  | cons y ys ih =>
    simp only [insertDescBy]
    by_cases h : key y ≤ key x
    · simp [h]
    · simp only [if_neg h]
      exact ((ih.cons y).trans (List.Perm.swap x y ys)).symm.symm

theorem sortDescBy_perm {α : Type} (key : α → Nat) (l : List α) :
    (sortDescBy key l).Perm l := by
  induction l with
  | nil => simp [sortDescBy]
  | cons x xs ih =>
    exact (insertDescBy_perm key x (sortDescBy key xs)).trans (ih.cons x)

theorem insertDescBy_pairwise {α : Type} (key : α → Nat) (x : α) (l : List α)
    (h : l.Pairwise (fun a b => key b ≤ key a)) :
    (insertDescBy key x l).Pairwise (fun a b => key b ≤ key a) := by
  induction l with
  | nil => simp [insertDescBy]
  | cons y ys ih =>
    simp only [insertDescBy]
    rcases List.pairwise_cons.mp h with ⟨hy, hys⟩
    by_cases hk : key y ≤ key x
    · simp only [if_pos hk]
      refine List.pairwise_cons.mpr ⟨?_, h⟩
      intro b hb
      rcases List.mem_cons.mp hb with rfl | hb
      · exact hk
      · exact le_trans (hy _ hb) hk
    · simp only [if_neg hk]
      refine List.pairwise_cons.mpr ⟨?_, ih hys⟩
      intro b hb
      have hb' := (insertDescBy_perm key x ys).mem_iff.mp hb
      rcases List.mem_cons.mp hb' with rfl | hb'
      · omega
      · exact hy _ hb'

theorem sortDescBy_pairwise {α : Type} (key : α → Nat) (l : List α) :
    (sortDescBy key l).Pairwise (fun a b => key b ≤ key a) := by
  induction l with
  | nil => simp [sortDescBy]
  | cons x xs ih => exact insertDescBy_pairwise key x _ ih

theorem sublist_insertDescBy {α : Type} (key : α → Nat) (x : α) {s l : List α}
    (h : s.Sublist l) : s.Sublist (insertDescBy key x l) := by
  induction l generalizing s with
  | nil =>
    simp only [List.sublist_nil] at h
    subst h
    simp [insertDescBy]
  | cons y ys ih =>
    simp only [insertDescBy]
    by_cases hk : key y ≤ key x
    · simpa [hk] using h.cons x
    · simp only [if_neg hk]
      cases h with
      | cons _ h => exact (ih h).cons y
      | cons₂ _ h => exact (ih h).cons₂ y

theorem pair_sublist_insertDescBy {α : Type} (key : α → Nat) {x y : α} {l : List α}
    (hy : y ∈ l) (hk : key y ≤ key x) : [x, y].Sublist (insertDescBy key x l) := by
  induction l with
  | nil => cases hy
  | cons b bs ih =>
    simp only [insertDescBy]
    by_cases hb : key b ≤ key x
    · simp only [if_pos hb]
      exact (List.singleton_sublist.mpr hy).cons₂ x
    · simp only [if_neg hb]
      rcases List.mem_cons.mp hy with rfl | hy
      · omega
      · exact (ih hy).cons b

theorem pair_sublist_sortDescBy {α : Type} (key : α → Nat) {x y : α} {l : List α}
    (h : [x, y].Sublist l) (hk : key y ≤ key x) :
    [x, y].Sublist (sortDescBy key l) := by
  induction l with
  | nil => simp at h
  | cons a as ih =>
    simp only [sortDescBy]
    cases h with
    | cons _ h => exact sublist_insertDescBy key a (ih h)
    | cons₂ _ h =>
      have hy : y ∈ sortDescBy key as :=
        (sortDescBy_perm key as).mem_iff.mpr (List.singleton_sublist.mp h)
      exact pair_sublist_insertDescBy key hy hk

/-! ## Helper lemmas: monad and arithmetic -/

theorem bind_ok {ε α β : Type} {e : Except ε α} {f : α → Except ε β} {b : β} :
    (e >>= f) = .ok b ↔ ∃ a, e = .ok a ∧ f a = .ok b := by
  cases e <;> simp [Bind.bind, Except.bind]

theorem chkAdd_ok {a b c : Nat} (h : chkAdd a b = .ok c) : c = a + b := by
  unfold chkAdd at h
  split at h <;> simp_all [pure, Except.pure]

theorem chkMul_ok {a b c : Nat} (h : chkMul a b = .ok c) : c = a * b := by
  unfold chkMul at h
  split at h <;> simp_all [pure, Except.pure]

theorem chkPow_ok {a n c : Nat} (h : chkPow a n = .ok c) : c = a ^ n := by
  unfold chkPow at h
  split at h <;> simp_all [pure, Except.pure]

theorem chkSub_ok {a b c : Nat} (h : chkSub a b = .ok c) : b ≤ a ∧ c = a - b := by
  unfold chkSub at h
  split at h <;> simp_all [pure, Except.pure]

theorem chkDiv_ok {a b c : Nat} (h : chkDiv a b = .ok c) : b ≠ 0 ∧ c = a / b := by
  unfold chkDiv at h
  split at h <;> simp_all [pure, Except.pure]

theorem ceilSqrtFrom_spec (n : Nat) :
    ∀ fuel r, n ≤ (fuel + r) * (fuel + r) → (∀ s, s < r → s * s < n) →
    n ≤ ceilSqrtFrom n fuel r * ceilSqrtFrom n fuel r ∧
      ∀ s, s < ceilSqrtFrom n fuel r → s * s < n := by
  intro fuel
  induction fuel with
  | zero =>
    intro r hr hinv
    simpa [ceilSqrtFrom] using ⟨by simpa using hr, hinv⟩
  | succ fuel ih =>
    intro r hr hinv
    simp only [ceilSqrtFrom]
    by_cases h : n ≤ r * r
    · simp only [if_pos h]
      exact ⟨h, hinv⟩
    · simp only [if_neg h]
      refine ih (r + 1) ?_ ?_
      · have e : fuel + (r + 1) = fuel + 1 + r := by omega
        rw [e]
        exact hr
      intro s hs
      rcases Nat.lt_succ_iff_lt_or_eq.mp hs with hs | rfl
      · exact hinv s hs
      · omega

theorem ceilSqrt_spec (n : Nat) :
    n ≤ ceilSqrt n * ceilSqrt n ∧ ∀ s, s < ceilSqrt n → s * s < n := by
  refine ceilSqrtFrom_spec n (n + 1) 0 ?_ (by omega)
  nlinarith

/-- The code-side ceil-sqrt really is `⌈√n⌉`, here phrased through `Nat.sqrt`
of the predecessor. -/
theorem ceilSqrt_eq_sqrt_pred {n : Nat} (h : 1 ≤ n) :
    ceilSqrt n = Nat.sqrt (n - 1) + 1 := by
  obtain ⟨hle, hlt⟩ := ceilSqrt_spec n
  have h1 : n ≤ (Nat.sqrt (n - 1) + 1) * (Nat.sqrt (n - 1) + 1) := by
    have := Nat.lt_succ_sqrt (n - 1)
    simp only [Nat.succ_eq_add_one] at this
    omega
  have h2 : ∀ s, s < Nat.sqrt (n - 1) + 1 → s * s < n := by
    intro s hs
    have hs' : s ≤ Nat.sqrt (n - 1) := by omega
    have := Nat.sqrt_le (n - 1)
    have : s * s ≤ Nat.sqrt (n - 1) * Nat.sqrt (n - 1) := Nat.mul_le_mul hs' hs'
    omega
  rcases Nat.lt_trichotomy (ceilSqrt n) (Nat.sqrt (n - 1) + 1) with hc | hc | hc
  · have := h2 _ hc
    omega
  · exact hc
  · have := hlt _ hc
    omega

theorem log10Go_eq (fuel : Nat) :
    ∀ n, n < 10 ^ fuel → log10Go fuel n = Nat.log 10 n + 1 := by
  induction fuel with
  | zero =>
    intro n hn
    interval_cases n
    simp [log10Go]
  | succ fuel ih =>
    intro n hn
    simp only [log10Go]
    by_cases h : n < 10
    · simp only [if_pos h]
      have : Nat.log 10 n = 0 := Nat.log_eq_zero_iff.mpr (Or.inl h)
      omega
    · simp only [if_neg h]
      have hdiv : n / 10 < 10 ^ fuel := by
        rw [Nat.div_lt_iff_lt_mul (by omega)]
        calc n < 10 ^ (fuel + 1) := hn
        _ = 10 ^ fuel * 10 := by ring
      rw [ih _ hdiv, Nat.log_div_base 10 n]
      have hpos : Nat.log 10 n ≠ 0 := by
        intro h0
        rcases Nat.log_eq_zero_iff.mp h0 with h1 | h1 <;> omega
      omega

/-- The code-side digit count equals `⌊log₁₀ num⌋ + 1` for positive input. -/
theorem log_10_eq (num : Nat) : log_10 num = Nat.log 10 num + 1 := by
  have h : num < 10 ^ (num + 1) := by
    calc num < 2 ^ num := Nat.lt_two_pow num
    _ ≤ 10 ^ num := Nat.pow_le_pow_left (by omega) num
    _ ≤ 10 ^ (num + 1) := Nat.pow_le_pow_right (by omega) (by omega)
  exact log10Go_eq (num + 1) num h

/-! ## Helper lemmas: the criteria pipeline -/

theorem resolveAccount_wallet (d : ReversiblePayableAccount)
    (res : DecidedPayableAccountResolution) :
    (resolveAccount d res).wallet = d.adjusted_account.wallet := by
  cases res <;> rfl

theorem finalize_map_wallet (dec : List ReversiblePayableAccount)
    (res : DecidedPayableAccountResolution) :
    (finalize_decided_accounts dec res).map (·.wallet) =
      dec.map (·.adjusted_account.wallet) := by
  simp only [finalize_decided_accounts, List.map_map]
  apply List.map_congr_left
  intro d _
  exact resolveAccount_wallet d res

theorem computeCriteria_ok {now : Nat} {accounts : List PayableAccount}
    {cs : List (Nat × PayableAccount)}
    (h : computeCriteria now accounts = .ok cs) :
    cs.map (·.2) = accounts ∧ ∀ p ∈ cs, criterionOf now p.2 = .ok p.1 := by
  induction accounts generalizing cs with
  | nil =>
    simp only [computeCriteria, mapRu, pure, Except.pure, Except.ok.injEq] at h
    subst h
    simp
  | cons a as ih =>
    simp only [computeCriteria, mapRu, bind_ok, pure, Except.pure, Except.ok.injEq] at h
    obtain ⟨y, ⟨w, hw, hy⟩, ys, hys, hcs⟩ := h
    subst hy hcs
    obtain ⟨hmap, hall⟩ := ih hys
    constructor
    · simp [hmap]
    · intro p hp
      rcases List.mem_cons.mp hp with rfl | hp
      · exact hw
      · exact hall p hp

theorem apply_criteria_ok {now : Nat} {accounts : List PayableAccount}
    {l : List (Nat × PayableAccount)} (h : apply_criteria now accounts = .ok l) :
    ∃ cs, computeCriteria now accounts = .ok cs ∧ l = sortByWeights cs := by
  simp only [apply_criteria, bind_ok, pure, Except.pure, Except.ok.injEq] at h
  obtain ⟨cs, hcs, hl⟩ := h
  exact ⟨cs, hcs, hl.symm⟩

theorem apply_criteria_wallets {now : Nat} {accounts : List PayableAccount}
    {l : List (Nat × PayableAccount)} (h : apply_criteria now accounts = .ok l) :
    (l.map (·.2.wallet)).Perm (accounts.map (·.wallet)) := by
  obtain ⟨cs, hcs, rfl⟩ := apply_criteria_ok h
  have hmap := (computeCriteria_ok hcs).1
  have hperm : (sortByWeights cs).Perm cs := sortDescBy_perm _ cs
  have h1 : ((sortByWeights cs).map (·.2.wallet)).Perm (cs.map (·.2.wallet)) :=
    hperm.map _
  have h2 : cs.map (·.2.wallet) = accounts.map (·.wallet) := by
    rw [← hmap, List.map_map]
    rfl
  rw [h2] at h1
  exact h1

theorem proposedBalance_ok {fragment coeff w p : Nat}
    (h : proposedBalance fragment coeff w = .ok p) :
    w * fragment < U128_LIMIT ∧ p = w * fragment / coeff := by
  simp only [proposedBalance, bind_ok, pure, Except.pure, Except.ok.injEq] at h
  obtain ⟨x, hx, hp⟩ := h
  unfold chkMul at hx
  split at hx
  · simp only [pure, Except.pure, Except.ok.injEq] at hx
    subst hx
    exact ⟨by assumption, hp.symm⟩
  · cases hx

/-- Inversion of the per-account body of
`recreate_accounts_with_proportioned_balances`: the account is kept exactly
when the proposed balance is at least half the original (the source's
`(original*10)/2 ≤ proposed*10` test), and the two outcomes carry exactly
the data the source pushes. -/
theorem routeOne_ok {fragment coeff w : Nat} {a : PayableAccount}
    {r : ReversiblePayableAccount ⊕ DisqualifiedPayableAccount}
    (h : routeOne fragment coeff (w, a) = .ok r) :
    ∃ p, proposedBalance fragment coeff w = .ok p ∧
      ((a.balance_wei ≤ 2 * p ∧
          r = .inl ⟨{ a with balance_wei := p }, a.balance_wei⟩) ∨
        (2 * p < a.balance_wei ∧
          r = .inr ⟨a.wallet, p, a.balance_wei⟩)) := by
  simp only [routeOne, bind_ok] at h
  obtain ⟨p, hp, h⟩ := h
  obtain ⟨lhs, hlhs, h⟩ := h
  obtain ⟨rhs, hrhs, h⟩ := h
  have hlhs' := chkMul_ok hlhs
  have hrhs' := chkMul_ok hrhs
  subst hlhs' hrhs'
  refine ⟨p, hp, ?_⟩
  by_cases hc : a.balance_wei * 10 / 2 ≤ p * 10
  · left
    rw [if_pos hc] at h
    simp only [pure, Except.pure, Except.ok.injEq] at h
    exact ⟨by omega, h.symm⟩
  · right
    rw [if_neg hc] at h
    simp only [pure, Except.pure, Except.ok.injEq] at h
    exact ⟨by omega, h.symm⟩

/-! ## Helper lemmas: one adjustment iteration -/

theorem recreateGo_ok_facts {fragment coeff : Nat} :
    ∀ {l : List (Nat × PayableAccount)} {dec : List ReversiblePayableAccount}
      {disq : List DisqualifiedPayableAccount},
    recreateGo fragment coeff l = .ok (dec, disq) →
    (dec.map (·.adjusted_account.wallet) ++ disq.map (·.wallet)).Perm
        (l.map (·.2.wallet)) ∧
      (∀ q ∈ disq, ∃ ca ∈ l, routeOne fragment coeff ca = .ok (.inr q)) ∧
      (∀ ca ∈ l, ∃ r, routeOne fragment coeff ca = .ok r ∧
        (match r with | .inl d => d ∈ dec | .inr q => q ∈ disq)) := by
  intro l
  induction l with
  | nil =>
    intro dec disq h
    simp only [recreateGo, pure, Except.pure, Except.ok.injEq, Prod.mk.injEq] at h
    obtain ⟨rfl, rfl⟩ := h
    simp
  | cons ca rest ih =>
    intro dec disq h
    obtain ⟨cw, cacc⟩ := ca
    simp only [recreateGo, bind_ok] at h
    obtain ⟨r, hr, p, hrest, hfin⟩ := h
    obtain ⟨dec', disq'⟩ := p
    obtain ⟨hperm', hdisq', hall'⟩ := ih hrest
    obtain ⟨prop, hprop, hcases⟩ := routeOne_ok hr
    cases r with
    | inl d =>
      simp only [pure, Except.pure, Except.ok.injEq, Prod.mk.injEq] at hfin
      obtain ⟨rfl, rfl⟩ := hfin
      have hw : d.adjusted_account.wallet = cacc.wallet := by
        rcases hcases with ⟨_, hd⟩ | ⟨_, hd⟩
        · cases hd
          rfl
        · cases hd
      refine ⟨?_, ?_, ?_⟩
      · simp only [List.map_cons, List.cons_append]
        rw [hw]
        exact hperm'.cons _
      · intro q hq
        obtain ⟨ca', hca', hr'⟩ := hdisq' q hq
        exact ⟨ca', List.mem_cons_of_mem _ hca', hr'⟩
      · intro ca' hca'
        rcases List.mem_cons.mp hca' with rfl | hca'
        · exact ⟨.inl d, hr, List.mem_cons_self _ _⟩
        · obtain ⟨r', hr', hmem⟩ := hall' ca' hca'
          refine ⟨r', hr', ?_⟩
          cases r' with
          | inl d' => exact List.mem_cons_of_mem _ hmem
          | inr q' => exact hmem
    | inr q =>
      simp only [pure, Except.pure, Except.ok.injEq, Prod.mk.injEq] at hfin
      obtain ⟨rfl, rfl⟩ := hfin
      have hw : q.wallet = cacc.wallet := by
        rcases hcases with ⟨_, hd⟩ | ⟨_, hd⟩
        · cases hd
        · cases hd
          rfl
      refine ⟨?_, ?_, ?_⟩
      · simp only [List.map_cons]
        rw [hw]
        exact List.perm_middle.trans (hperm'.cons _)
      · intro q' hq'
        rcases List.mem_cons.mp hq' with rfl | hq'
        · exact ⟨(cw, cacc), List.mem_cons_self _ _, hr⟩
        · obtain ⟨ca', hca', hr'⟩ := hdisq' q' hq'
          exact ⟨ca', List.mem_cons_of_mem _ hca', hr'⟩
      · intro ca' hca'
        rcases List.mem_cons.mp hca' with rfl | hca'
        · exact ⟨.inr q, hr, List.mem_cons_self _ _⟩
        · obtain ⟨r', hr', hmem⟩ := hall' ca' hca'
          refine ⟨r', hr', ?_⟩
          cases r' with
          | inl d' => exact hmem
          | inr q' => exact List.mem_cons_of_mem _ hmem

theorem recreate_ok_inv {l : List (Nat × PayableAccount)} {cw W : Nat}
    {dec : List ReversiblePayableAccount} {disq : List DisqualifiedPayableAccount}
    (h : recreate_accounts_with_proportioned_balances l cw W = .ok (dec, disq)) :
    ∃ coeff fragment, find_decent_multiplication_coeff cw W = .ok coeff ∧
      chkMul cw coeff >>= (chkDiv · W) = .ok fragment ∧
      recreateGo fragment coeff l = .ok (dec, disq) := by
  simp only [recreate_accounts_with_proportioned_balances, bind_ok] at h
  obtain ⟨coeff, hc, product, hp, fragment, hf, hgo⟩ := h
  exact ⟨coeff, fragment, hc, bind_ok.mpr ⟨product, hp, hf⟩, hgo⟩

theorem handle_masq_buckets {cw : Nat} {l : List (Nat × PayableAccount)}
    {res : AdjustmentIterationResult}
    (h : handle_masq_token_adjustment cw l = .ok res) :
    ((res.decided_accounts.map (·.wallet) ++ res.remaining_accounts.map (·.wallet)) ++
      res.disqualified_accounts.map (·.wallet)).Perm (l.map (·.2.wallet)) := by
  simp only [handle_masq_token_adjustment, bind_ok] at h
  obtain ⟨⟨req, crit⟩, htot, h⟩ := h
  obtain ⟨prio, hprio, h⟩ := h
  cases prio with
  | some wallets =>
    simp only [pure, Except.pure, Except.ok.injEq] at h
    subst h
    simp only [List.partition_eq_filter_filter]
    have hperm : ((l.map (·.2)).filter (fun a => decide (a.wallet ∈ wallets)) ++
        (l.map (·.2)).filter (not ∘ fun a => decide (a.wallet ∈ wallets))).Perm
        (l.map (·.2)) := by
      have := List.filter_append_perm (fun a => decide (a.wallet ∈ wallets))
        (l.map (·.2))
      simpa [Function.comp] using this
    have hperm2 := hperm.map (·.wallet)
    simp only [List.map_append] at hperm2
    have hmm : (l.map (·.2)).map (·.wallet) = l.map (·.2.wallet) := by
      rw [List.map_map]
      rfl
    rw [hmm] at hperm2
    simpa using hperm2
  | none =>
    dsimp only at h
    rcases hrec : recreate_accounts_with_proportioned_balances l cw crit with e | v
    · rw [hrec] at h
      cases h
    · rw [hrec] at h
      obtain ⟨dec, disq⟩ := v
      obtain ⟨coeff, fragment, -, -, hgo⟩ := recreate_ok_inv hrec
      obtain ⟨hperm, -, -⟩ := recreateGo_ok_facts hgo
      cases disq with
      | nil =>
        simp only [List.isEmpty_nil, if_true, pure, Except.pure] at h
        cases h
        simp only [List.map_nil, List.append_nil, finalize_map_wallet]
        simpa using hperm
      | cons q qs =>
        simp only [List.isEmpty_cons, if_false, pure, Except.pure] at h
        cases h
        simp only [List.map_nil, List.nil_append, finalize_map_wallet]
        exact hperm

theorem give_job_continue {gas : Option Nat} {cs : List (Nat × PayableAccount)}
    {cw : Nat} {res : AdjustmentIterationResult}
    (h : give_job_to_adjustment_workers gas cs cw = .ok (.continueIt res)) :
    ∃ cut, cut.Sublist cs ∧ handle_masq_token_adjustment cw cut = .ok res := by
  cases gas with
  | none =>
    simp only [give_job_to_adjustment_workers, bind_ok, pure, Except.pure,
      Except.ok.injEq] at h
    obtain ⟨r, hr, hres⟩ := h
    cases hres
    exact ⟨cs, List.Sublist.refl cs, hr⟩
  | some limit =>
    simp only [give_job_to_adjustment_workers, bind_ok] at h
    obtain ⟨need, hneed, h⟩ := h
    match need with
    | .ok true =>
      simp only [bind_ok, pure, Except.pure, Except.ok.injEq] at h
      obtain ⟨r, hr, hres⟩ := h
      cases hres
      exact ⟨cut_back_by_gas_count_limit cs limit, List.take_sublist _ _, hr⟩
    | .ok false =>
      simp only [pure, Except.pure, Except.ok.injEq] at h
      cases h
    | .error e =>
      cases h

theorem give_job_finished {gas : Option Nat} {cs : List (Nat × PayableAccount)}
    {cw : Nat} {fin : List PayableAccount}
    (h : give_job_to_adjustment_workers gas cs cw = .ok (.finished fin)) :
    ∃ cut : List (Nat × PayableAccount), cut.Sublist cs ∧
      fin = rebuild_accounts cut := by
  cases gas with
  | none =>
    simp only [give_job_to_adjustment_workers, bind_ok, pure, Except.pure,
      Except.ok.injEq] at h
    obtain ⟨r, hr, hres⟩ := h
    cases hres
  | some limit =>
    simp only [give_job_to_adjustment_workers, bind_ok] at h
    obtain ⟨need, hneed, h⟩ := h
    match need with
    | .ok true =>
      simp only [bind_ok, pure, Except.pure, Except.ok.injEq] at h
      obtain ⟨r, hr, hres⟩ := h
      cases hres
    | .ok false =>
      simp only [pure, Except.pure, Except.ok.injEq] at h
      cases h
      exact ⟨cut_back_by_gas_count_limit cs limit, List.take_sublist _ _, rfl⟩
    | .error e =>
      cases h

/-! ## Helper lemmas: the recursion of `run_recursively` -/

theorem run_recursively_subset (now : Nat) :
    ∀ (fuel : Nat) {already : List PayableAccount} {cw : Nat} {gas : Option Nat}
      {accounts out : List PayableAccount},
    run_recursively now fuel already cw gas accounts = .ok out →
    ∀ w, w ∈ out.map (·.wallet) →
      w ∈ already.map (·.wallet) ∨ w ∈ accounts.map (·.wallet) := by
  intro fuel
  induction fuel with
  | zero =>
    intro already cw gas accounts out h
    simp only [run_recursively] at h
    cases h
  | succ fuel ih =>
    intro already cw gas accounts out h w hw
    simp only [run_recursively, bind_ok] at h
    obtain ⟨cs, hcs, m, hm, h⟩ := h
    have hcsw := apply_criteria_wallets hcs
    cases m with
    | finished fin =>
      simp only [pure, Except.pure, Except.ok.injEq] at h
      cases h
      obtain ⟨cut, hsub, rfl⟩ := give_job_finished hm
      right
      have h1 : w ∈ cut.map (·.2.wallet) := by
        have : (rebuild_accounts cut).map (·.wallet) = cut.map (·.2.wallet) := by
          simp only [rebuild_accounts, List.map_map]
          rfl
        rwa [this] at hw
      have h2 : w ∈ cs.map (·.2.wallet) := (hsub.map (·.2.wallet)).subset h1
      exact hcsw.mem_iff.mp h2
    | continueIt res =>
      obtain ⟨cut, hcut, hhm⟩ := give_job_continue hm
      have hbuck := handle_masq_buckets hhm
      have hmemAcc : ∀ v, (v ∈ res.decided_accounts.map (·.wallet) ∨
          v ∈ res.remaining_accounts.map (·.wallet) ∨
          v ∈ res.disqualified_accounts.map (·.wallet)) →
          v ∈ accounts.map (·.wallet) := by
        intro v hv
        have h1 : v ∈ cut.map (·.2.wallet) := hbuck.mem_iff.mp (by
          simp only [List.mem_append]
          tauto)
        have h2 : v ∈ cs.map (·.2.wallet) := (hcut.map (·.2.wallet)).subset h1
        exact hcsw.mem_iff.mp h2
      dsimp only at h
      split at h
      · simp only [pure, Except.pure, Except.ok.injEq] at h
        cases h
        simp only [List.map_append, List.mem_append] at hw
        rcases hw with h1 | h1
        · exact Or.inl h1
        · exact Or.inr (hmemAcc w (Or.inl h1))
      · split at h <;>
        · simp only [bind_ok] at h
          obtain ⟨sub, hsubt, ncw, hncw, hrun⟩ := h
          rcases ih hrun w hw with h1 | h1
          · exact Or.inr (hmemAcc w (Or.inl h1))
          · exact Or.inr (hmemAcc w (Or.inr (Or.inl h1)))

theorem handle_masq_disjoint {cw : Nat} {cut : List (Nat × PayableAccount)}
    {res : AdjustmentIterationResult}
    (h : handle_masq_token_adjustment cw cut = .ok res)
    (hnd : (cut.map (·.2.wallet)).Nodup) :
    ∀ w ∈ res.disqualified_accounts.map (·.wallet),
      w ∉ res.decided_accounts.map (·.wallet) ∧
        w ∉ res.remaining_accounts.map (·.wallet) := by
  have hbuck := handle_masq_buckets h
  have hnd2 : ((res.decided_accounts.map (·.wallet) ++
      res.remaining_accounts.map (·.wallet)) ++
      res.disqualified_accounts.map (·.wallet)).Nodup := hbuck.symm.nodup hnd
  have hdisj := List.disjoint_of_nodup_append hnd2
  intro w hw
  constructor
  · intro hcontra
    exact hdisj (List.mem_append.mpr (Or.inl hcontra)) hw
  · intro hcontra
    exact hdisj (List.mem_append.mpr (Or.inr hcontra)) hw

/-- Claim C2: in every adjustment iteration, an account whose proposed
proportionally-allocated balance is less than half of its original
`balance_wei` (strictly: `2 * proposed < original`, the exact rational
reading of the source's `(original*10)/2 <= proposed*10` test) lands in the
disqualified bucket, while an account whose proposed balance is at least
half — equality included — is kept, with its balance overwritten by the
proposal; and a wallet disqualified in an iteration of `run_recursively`
(every iteration is the head of a recursive call with some accumulator
`already` and budget `cw`, so quantifying those covers all iterations) never
appears in the returned account list, provided the wallets in play are
distinct. -/
theorem claim_c2_disqualification_rule_and_exclusion :
    (∀ (l : List (Nat × PayableAccount)) (cw W : Nat)
      (dec : List ReversiblePayableAccount)
      (disq : List DisqualifiedPayableAccount) (weight : Nat) (a : PayableAccount),
      recreate_accounts_with_proportioned_balances l cw W = .ok (dec, disq) →
      (weight, a) ∈ l →
      ∃ coeff fragment p, find_decent_multiplication_coeff cw W = .ok coeff ∧
        (chkMul cw coeff >>= (chkDiv · W)) = .ok fragment ∧
        proposedBalance fragment coeff weight = .ok p ∧
        (2 * p < a.balance_wei →
          (⟨a.wallet, p, a.balance_wei⟩ : DisqualifiedPayableAccount) ∈ disq) ∧
        (a.balance_wei ≤ 2 * p →
          (⟨{ a with balance_wei := p }, a.balance_wei⟩ :
            ReversiblePayableAccount) ∈ dec)) ∧
    (∀ (now fuel : Nat) (already accounts out : List PayableAccount) (cw : Nat)
      (gas : Option Nat) (cs : List (Nat × PayableAccount))
      (res : AdjustmentIterationResult) (w : Wallet),
      apply_criteria now accounts = .ok cs →
      give_job_to_adjustment_workers gas cs cw = .ok (.continueIt res) →
      run_recursively now fuel already cw gas accounts = .ok out →
      (((already ++ accounts).map (·.wallet)).Nodup) →
      w ∈ res.disqualified_accounts.map (·.wallet) →
      w ∉ out.map (·.wallet)) := by
  constructor
  · intro l cw W dec disq weight a hrec hmem
    obtain ⟨coeff, fragment, hc, hf, hgo⟩ := recreate_ok_inv hrec
    obtain ⟨-, -, hall⟩ := recreateGo_ok_facts hgo
    obtain ⟨r, hr, hbucket⟩ := hall (weight, a) hmem
    obtain ⟨p, hp, hcases⟩ := routeOne_ok hr
    refine ⟨coeff, fragment, p, hc, hf, hp, ?_, ?_⟩
    · intro hlt
      rcases hcases with ⟨hle, rfl⟩ | ⟨hlt2, rfl⟩
      · omega
      · exact hbucket
    · intro hle
      rcases hcases with ⟨hle2, rfl⟩ | ⟨hlt, rfl⟩
      · exact hbucket
      · omega
  · intro now fuel already accounts out cw gas cs res w hcs hgj hrun hnd hw
    cases fuel with
    | zero =>
      simp only [run_recursively] at hrun
      cases hrun
    | succ fuel =>
      simp only [run_recursively, bind_ok] at hrun
      obtain ⟨cs', hcs', m, hm', h⟩ := hrun
      rw [hcs] at hcs'
      injection hcs' with hcs'
      subst hcs'
      rw [hgj] at hm'
      injection hm' with hm'
      subst hm'
      -- shared facts
      rw [List.map_append] at hnd
      obtain ⟨hndAl, hndAcc, hdisjAA⟩ := List.nodup_append.mp hnd
      have hcsw := apply_criteria_wallets hcs
      have hndCs : (cs.map (·.2.wallet)).Nodup := hcsw.symm.nodup hndAcc
      obtain ⟨cut, hcut, hhm⟩ := give_job_continue hgj
      have hndCut : (cut.map (·.2.wallet)).Nodup :=
        (hcut.map (·.2.wallet)).nodup hndCs
      have hbuck := handle_masq_buckets hhm
      obtain ⟨hwdec, hwrem⟩ := handle_masq_disjoint hhm hndCut w hw
      have hwAcc : w ∈ accounts.map (·.wallet) := by
        have h1 : w ∈ cut.map (·.2.wallet) := hbuck.mem_iff.mp
          (List.mem_append.mpr (Or.inr hw))
        exact hcsw.mem_iff.mp ((hcut.map (·.2.wallet)).subset h1)
      have hwAl : w ∉ already.map (·.wallet) := fun hc => hdisjAA hc hwAcc
      dsimp only at h
      split at h
      · simp only [pure, Except.pure, Except.ok.injEq] at h
        cases h
        intro hcontra
        simp only [List.map_append, List.mem_append] at hcontra
        rcases hcontra with hc | hc
        · exact hwAl hc
        · exact hwdec hc
      · split at h <;>
        · simp only [bind_ok] at h
          obtain ⟨sub, hsubt, ncw, hncw, hrun2⟩ := h
          intro hcontra
          rcases run_recursively_subset now fuel hrun2 w hcontra with hc | hc
          · exact hwdec hc
          · exact hwrem hc

/-! ## Helper lemmas: the housekeeping iteration -/

theorem remap_then_command_trace {input : IterationInput}
    {calls : List AutomapChange} {config : ChangeHandlerConfig}
    {out : IterationTrace × ChangeHandlerConfig × LoopControl}
    (h : remap_then_command input calls config = some out) :
    out.1.remapCheckExecuted = true ∧ out.1.commandPolled = true ∧
      (input.command = some .stop → out.2.2 = .stop) := by
  simp only [remap_then_command] at h
  split at h
  · -- remap due
    split at h
    · cases h
    · -- remap ok
      split at h <;> rename_i hcmd <;>
        first
        | (cases h
           refine ⟨rfl, rfl, ?_⟩
           intro hstop
           rfl)
        | (cases h
           refine ⟨rfl, rfl, ?_⟩
           intro hstop
           rw [hcmd] at hstop
           cases hstop)
    · -- remap error
      split at h <;> rename_i hcmd <;>
        first
        | (cases h
           refine ⟨rfl, rfl, ?_⟩
           intro hstop
           rfl)
        | (cases h
           refine ⟨rfl, rfl, ?_⟩
           intro hstop
           rw [hcmd] at hstop
           cases hstop)
  · -- remap not due
    split at h <;> rename_i hcmd <;>
      first
      | (cases h
         refine ⟨rfl, rfl, ?_⟩
         intro hstop
         rfl)
      | (cases h
         refine ⟨rfl, rfl, ?_⟩
         intro hstop
         rw [hcmd] at hstop
         cases hstop)

/-- Claim C4 (amended): in every housekeeping-loop iteration whose receive
attempt is not a datagram from a non-router source — including timeouts,
other receive errors, unparseable packets and non-Announce packets — the
remap-interval check executes and the command poll follows it, so a pending
`Stop` command makes that iteration break the loop. (Iterations that receive
a datagram from a non-router source restart the loop immediately, skipping
both phases: see the counterexample.) -/
theorem claim_c4_remap_check_and_stop_after_non_foreign_receives
    (router_ip : IpAddr) (input : IterationInput) (config : ChangeHandlerConfig)
    (trace : IterationTrace) (config2 : ChangeHandlerConfig) (ctl : LoopControl)
    (hforeign : ∀ s p, input.recv = .datagram s p → s = router_ip)
    (h : thread_guts_iteration router_ip input config = some (trace, config2, ctl)) :
    trace.remapCheckExecuted = true ∧ trace.commandPolled = true ∧
      (input.command = some .stop → ctl = .stop) := by
  obtain ⟨recv, elapsed, aio, rio, cmd⟩ := input
  cases recv with
  | datagram s p =>
    have hs : s = router_ip := hforeign s p rfl
    subst hs
    simp only [thread_guts_iteration, ne_eq, not_true_eq_false, if_false,
      ite_false] at h
    cases p with
    | parsed packet =>
      dsimp only at h
      split at h
      · -- Announce packet: handle_announcement ran
        split at h
        · cases h
        · exact remap_then_command_trace h
      · exact remap_then_command_trace h
    | unparseable =>
      exact remap_then_command_trace h
  | timedOut =>
    simp only [thread_guts_iteration] at h
    exact remap_then_command_trace h
  | otherIoError =>
    simp only [thread_guts_iteration] at h
    exact remap_then_command_trace h

/-- Claim C4 witness: a timeout-bounded receive with a pending `Stop` and an
idle remap timer still executes the remap check and honors `Stop`. -/
theorem claim_c4_remap_check_witness :
    thread_guts_iteration ⟨1⟩
      ⟨.timedOut, ⟨0⟩, .ioFailure (.protocolError "unused"),
        .ioFailure (.protocolError "unused"), some .stop⟩
      ⟨6666, Duration.fromSecs 10, Duration.fromSecs 5⟩ =
      some (⟨true, false, true, []⟩, ⟨6666, Duration.fromSecs 10, Duration.fromSecs 5⟩,
        .stop) ∧
    (true = true ∧ true = true ∧
      (some HousekeepingThreadCommand.stop = some .stop → LoopControl.stop = .stop)) :=
  ⟨rfl,
    claim_c4_remap_check_and_stop_after_non_foreign_receives ⟨1⟩
      ⟨.timedOut, ⟨0⟩, .ioFailure (.protocolError "unused"),
        .ioFailure (.protocolError "unused"), some .stop⟩
      ⟨6666, Duration.fromSecs 10, Duration.fromSecs 5⟩
      ⟨true, false, true, []⟩ ⟨6666, Duration.fromSecs 10, Duration.fromSecs 5⟩ .stop
      (by intro s p hp; cases hp) rfl⟩

/-- Claim C4 counterexample: a datagram from a non-router source (router is
1, sender is 2) with the remap long overdue (elapsed 10^6 ms against a
5-second interval) and a `Stop` command pending is answered by an iteration
that skips the remap check and the command poll entirely and keeps looping —
refuting "the remap-interval check is executed after every announcement
receive attempt" and the one-timeout-plus-one-remap bound on `Stop`. -/
theorem claim_c4_foreign_datagram_skips_remap_check :
    (Duration.fromSecs 5).millis < (⟨1000000⟩ : Duration).millis ∧
    thread_guts_iteration ⟨1⟩
      ⟨.datagram ⟨2⟩ (.parsed ⟨.response, .announce, some .success, 600,
          ⟨List.replicate 12 0, 7, 7, ⟨9⟩⟩⟩),
        ⟨1000000⟩, .ioFailure (.protocolError "unused"),
        .ioFailure (.protocolError "unused"), some .stop⟩
      ⟨6666, Duration.fromSecs 10, Duration.fromSecs 5⟩ =
      some (⟨false, false, false, []⟩,
        ⟨6666, Duration.fromSecs 10, Duration.fromSecs 5⟩, .continueLoop) :=
  ⟨by decide, rfl⟩

/-- Claim C5: a datagram whose source IP differs from the router's leaves
the housekeeping state untouched: no remap transaction, no change-handler
invocation, the `ChangeHandlerConfig` unmodified, and the loop just
continues. -/
theorem claim_c5_foreign_datagram_no_state_change
    (router_ip sender : IpAddr) (parse : ParseOutcome) (input : IterationInput)
    (config : ChangeHandlerConfig)
    (hrecv : input.recv = .datagram sender parse) (hne : sender ≠ router_ip) :
    thread_guts_iteration router_ip input config =
      some (⟨false, false, false, []⟩, config, .continueLoop) := by
  obtain ⟨recv, elapsed, aio, rio, cmd⟩ := input
  cases hrecv
  simp [thread_guts_iteration, hne]

/-- Claim C5 witness: router 1.1.1.1-analogue `⟨1⟩`, sender `⟨2⟩`, carrying a
well-formed Announce; the iteration discards it with no state change. -/
theorem claim_c5_foreign_datagram_witness :
    thread_guts_iteration ⟨1⟩
      ⟨.datagram ⟨2⟩ (.parsed ⟨.response, .announce, some .success, 600,
          ⟨List.replicate 12 0, 7, 7, ⟨9⟩⟩⟩),
        ⟨0⟩, .ioFailure (.protocolError "unused"),
        .ioFailure (.protocolError "unused"), none⟩
      ⟨1234, Duration.fromSecs 20, Duration.fromSecs 10⟩ =
      some (⟨false, false, false, []⟩,
        ⟨1234, Duration.fromSecs 20, Duration.fromSecs 10⟩, .continueLoop) :=
  claim_c5_foreign_datagram_no_state_change ⟨1⟩ ⟨2⟩
    (.parsed ⟨.response, .announce, some .success, 600,
      ⟨List.replicate 12 0, 7, 7, ⟨9⟩⟩⟩)
    ⟨.datagram ⟨2⟩ (.parsed ⟨.response, .announce, some .success, 600,
        ⟨List.replicate 12 0, 7, 7, ⟨9⟩⟩⟩),
      ⟨0⟩, .ioFailure (.protocolError "unused"),
      .ioFailure (.protocolError "unused"), none⟩
    ⟨1234, Duration.fromSecs 20, Duration.fromSecs 10⟩ rfl (by decide)

/-- Claim C1: a successful mapping transaction with approved lifetime `L`
writes `next_lifetime = L` seconds and `remap_interval = L / 2` seconds into
the `ChangeHandlerConfig` passed in, and `add_mapping` stores that config
and returns `L / 2`. -/
theorem claim_c1_success_sets_config_and_halves_lifetime
    (response : PcpPacket) (config : ChangeHandlerConfig) (hole_port lifetime : Nat)
    (hdir : response.direction = .response) (hop : response.opcode = .map)
    (hrc : response.result_code_opt = some .success) :
    mapping_transaction_on_response response config =
      some (.ok (response.lifetime, response.opcode_data),
        { config with
          next_lifetime := Duration.fromSecs response.lifetime,
          remap_interval := Duration.fromSecs (response.lifetime / 2) }) ∧
    add_mapping_io (.response response) hole_port lifetime =
      some (.ok (response.lifetime / 2),
        { hole_port := hole_port,
          next_lifetime := Duration.fromSecs response.lifetime,
          remap_interval := Duration.fromSecs (response.lifetime / 2) }) := by
  have hmt : ∀ cfg : ChangeHandlerConfig,
      mapping_transaction_on_response response cfg =
      some (.ok (response.lifetime, response.opcode_data),
        { cfg with
          next_lifetime := Duration.fromSecs response.lifetime,
          remap_interval := Duration.fromSecs (response.lifetime / 2) }) := by
    intro cfg
    simp [mapping_transaction_on_response, compute_mapping_result, hdir, hop, hrc]
  refine ⟨hmt config, ?_⟩
  simp only [add_mapping_io, mapping_transaction_io, hmt]

/-- Claim C1 witness: the spec's happy-path scenario — request for 10000 s on
port 6666, router approves 8000 s: the call returns 4000 and the stored
config is `{ 6666, 8000 s, 4000 s }`. -/
theorem claim_c1_success_witness :
    mapping_transaction_on_response
      ⟨.response, .map, some .success, 8000, ⟨List.replicate 12 0, 6666, 6666, ⟨72737475⟩⟩⟩
      ⟨6666, Duration.fromSecs 10000, Duration.fromSecs 0⟩ =
      some (.ok (8000, ⟨List.replicate 12 0, 6666, 6666, ⟨72737475⟩⟩),
        ⟨6666, Duration.fromSecs 8000, Duration.fromSecs 4000⟩) ∧
    add_mapping_io
      (.response ⟨.response, .map, some .success, 8000,
        ⟨List.replicate 12 0, 6666, 6666, ⟨72737475⟩⟩⟩) 6666 10000 =
      some (.ok 4000, ⟨6666, Duration.fromSecs 8000, Duration.fromSecs 4000⟩) :=
  claim_c1_success_sets_config_and_halves_lifetime
    ⟨.response, .map, some .success, 8000, ⟨List.replicate 12 0, 6666, 6666, ⟨72737475⟩⟩⟩
    ⟨6666, Duration.fromSecs 10000, Duration.fromSecs 0⟩ 6666 10000 rfl rfl rfl

/-- Claim C9: a mapping response with a non-Success result code yields
`PermanentMappingError(code)` when the code is permanent and
`TemporaryMappingError(code)` when it is transient, and the
`ChangeHandlerConfig` passed in is returned unchanged. -/
theorem claim_c9_error_classification
    (response : PcpPacket) (config : ChangeHandlerConfig) (rc : ResultCode)
    (hdir : response.direction = .response) (hop : response.opcode = .map)
    (hrc : response.result_code_opt = some rc) (hne : rc ≠ .success) :
    mapping_transaction_on_response response config =
      some (.error (if rc.is_permanent then
          AutomapError.permanentMappingError rc.debugStr
        else AutomapError.temporaryMappingError rc.debugStr), config) := by
  simp only [mapping_transaction_on_response, compute_mapping_result, hdir, hop, hrc]
  by_cases hp : rc.is_permanent <;>
    simp [hp, hne, Option.bind, pure]

/-- Claim C9 witness: the spec's permanent-failure scenario — the router
answers `AddressMismatch`; the call returns
`PermanentMappingError("AddressMismatch")` and the config is unchanged. -/
theorem claim_c9_error_witness :
    mapping_transaction_on_response
      ⟨.response, .map, some .addressMismatch, 0, ⟨List.replicate 12 0, 6666, 6666, ⟨0⟩⟩⟩
      ⟨6666, Duration.fromSecs 10000, Duration.fromSecs 0⟩ =
      some (.error (.permanentMappingError "AddressMismatch"),
        ⟨6666, Duration.fromSecs 10000, Duration.fromSecs 0⟩) :=
  claim_c9_error_classification
    ⟨.response, .map, some .addressMismatch, 0, ⟨List.replicate 12 0, 6666, 6666, ⟨0⟩⟩⟩
    ⟨6666, Duration.fromSecs 10000, Duration.fromSecs 0⟩ .addressMismatch
    rfl rfl rfl (by decide)

/-- Claim C2 witness: with wallets 1 (balance 1000) and 2 (balance 10) and a
budget of 550, wallet 2's proposed share (0 wei) is below half its debt, it
is disqualified, and the final output — wallet 1 readjusted to 539 wei —
does not contain it. -/
theorem claim_c2_disqualification_witness :
    run_recursively 10 5 [] 550 none
        [⟨⟨1⟩, 1000, 8, none⟩, ⟨⟨2⟩, 10, 8, none⟩] =
      .ok [⟨⟨1⟩, 539, 8, none⟩] ∧
    Wallet.mk 2 ∉ ([⟨⟨1⟩, 539, 8, none⟩] : List PayableAccount).map (·.wallet) :=
  ⟨rfl,
    claim_c2_disqualification_rule_and_exclusion.2 10 5 []
      [⟨⟨1⟩, 1000, 8, none⟩, ⟨⟨2⟩, 10, 8, none⟩] [⟨⟨1⟩, 539, 8, none⟩] 550 none
      [(64008, ⟨⟨1⟩, 1000, 8, none⟩), (88, ⟨⟨2⟩, 10, 8, none⟩)]
      ⟨[], [⟨⟨1⟩, 1000, 8, none⟩], [⟨⟨2⟩, 0, 10⟩]⟩ ⟨2⟩
      rfl rfl rfl (by decide) (by decide)⟩

/-- When the qualified payables' total fits into the consuming wallet's MASQ
balance, `check_need_of_masq_balances_adjustment` reports that no MASQ
adjustment is needed. -/
theorem check_need_ok_false {accounts : List PayableAccount} {cw T : Nat}
    (hsum : sumRu (accounts.map (·.balance_wei)) = .ok T) (hle : T ≤ cw) :
    check_need_of_masq_balances_adjustment accounts cw = .ok (.ok false) := by
  unfold check_need_of_masq_balances_adjustment
  rw [hsum]
  simp [Bind.bind, Except.bind, if_pos hle, pure, Except.pure]

/-- Claim C8 (amended): when the total of the accounts actually in play fits
into the budget `B`, the MASQ check reports no adjustment needed, and the
gas-limited path returns the weight-sorted, cut-back account list with every
balance unmodified. Without a transaction-fee limit, however,
`run_recursively` proceeds to the proportional allocation even when `T ≤ B`,
so the output need not equal the input (see the counterexample, where a
balance shrinks from 100 to 99 by integer rounding). -/
theorem claim_c8_no_adjustment_needed_when_total_fits :
    (∀ (accounts : List PayableAccount) (cw T : Nat),
      sumRu (accounts.map (·.balance_wei)) = .ok T → T ≤ cw →
      check_need_of_masq_balances_adjustment accounts cw = .ok (.ok false)) ∧
    (∀ (cs : List (Nat × PayableAccount)) (limit cw T : Nat),
      sumRu ((cs.take limit).map (·.2.balance_wei)) = .ok T → T ≤ cw →
      give_job_to_adjustment_workers (some limit) cs cw =
        .ok (.finished (rebuild_accounts (cs.take limit)))) := by
  constructor
  · intro accounts cw T hsum hle
    exact check_need_ok_false hsum hle
  · intro cs limit cw T hsum hle
    have hmm : ((cs.take limit).map (·.2)).map (·.balance_wei) =
        (cs.take limit).map (·.2.balance_wei) := by
      rw [List.map_map]
      rfl
    have hneed : check_need_of_masq_balances_adjustment
        ((cut_back_by_gas_count_limit cs limit).map (·.2)) cw = .ok (.ok false) := by
      apply check_need_ok_false _ hle
      rw [cut_back_by_gas_count_limit, hmm]
      exact hsum
    unfold give_job_to_adjustment_workers
    dsimp only
    rw [hneed]
    rfl

/-- Claim C8 witness: a two-account setup capped at one transaction whose
surviving account (40 wei) fits the 100-wei budget is returned as-is, and
the plain total-fits check reports no adjustment. -/
theorem claim_c8_no_adjustment_witness :
    check_need_of_masq_balances_adjustment [⟨⟨1⟩, 40, 0, none⟩] 100 =
      .ok (.ok false) ∧
    give_job_to_adjustment_workers (some 1)
        [(5, ⟨⟨1⟩, 40, 0, none⟩), (3, ⟨⟨2⟩, 70, 0, none⟩)] 100 =
      .ok (.finished [⟨⟨1⟩, 40, 0, none⟩]) :=
  ⟨claim_c8_no_adjustment_needed_when_total_fits.1 [⟨⟨1⟩, 40, 0, none⟩] 100 40
      rfl (by decide),
    claim_c8_no_adjustment_needed_when_total_fits.2
      [(5, ⟨⟨1⟩, 40, 0, none⟩), (3, ⟨⟨2⟩, 70, 0, none⟩)] 1 100 40 rfl (by decide)⟩

/-- Claim C8 counterexample: one account of 100 wei against a budget of
exactly 100 wei (`T ≤ B`), with no transaction-fee limit: the adjuster still
runs the proportional allocation and returns the account with balance 99 —
not the input unmodified. -/
theorem claim_c8_output_differs_counterexample :
    sumRu (([⟨⟨7⟩, 100, 0, none⟩] : List PayableAccount).map (·.balance_wei)) =
      .ok 100 ∧
    (100 : Nat) ≤ 100 ∧
    run_recursively 1 3 [] 100 none [⟨⟨7⟩, 100, 0, none⟩] =
      .ok [⟨⟨7⟩, 99, 0, none⟩] ∧
    ([⟨⟨7⟩, 99, 0, none⟩] : List PayableAccount) ≠ [⟨⟨7⟩, 100, 0, none⟩] :=
  ⟨rfl, by decide, rfl, by decide⟩

/-- Claim C10: a concrete input on which `adjust_payments` panics — wallets
1 and 2 each owe 1000 wei with slightly different ages against a 100-wei
budget; the weightier account is prioritized to be paid in full (1000 wei),
and the budget shrink `100 - 1000` underflows the unchecked `u128`
subtraction in `adjust_cw_balance_in_setup_data`. -/
theorem claim_c10_underflow_panic :
    adjust_payments .masqToken 100
      [⟨⟨1⟩, 1000, 8, none⟩, ⟨⟨2⟩, 1000, 7, none⟩] 10 5 = .error .underflow := rfl

/-- Claim C3: the setup where the total (350 wei) exceeds the budget
(100 wei) and even the smallest single debt (150 wei) exceeds the budget
does not produce a `ServiceFeeBalanceBelowSmallestDebt` error — no such
variant exists in `AnalysisError` — but runs into the literal `todo!()` of
`check_need_of_masq_balances_adjustment` and panics, also when entered
through `search_for_indispensable_adjustment`. -/
theorem claim_c3_unservable_setup_hits_todo :
    sumRu (([⟨⟨1⟩, 150, 0, none⟩, ⟨⟨2⟩, 200, 0, none⟩] :
        List PayableAccount).map (·.balance_wei)) = .ok 350 ∧
    find_smallest_debt [⟨⟨1⟩, 150, 0, none⟩, ⟨⟨2⟩, 200, 0, none⟩] = .ok 150 ∧
    (100 : Nat) < 150 ∧
    check_need_of_masq_balances_adjustment
      [⟨⟨1⟩, 150, 0, none⟩, ⟨⟨2⟩, 200, 0, none⟩] 100 = .error .todoHit ∧
    search_for_indispensable_adjustment
      [⟨⟨1⟩, 150, 0, none⟩, ⟨⟨2⟩, 200, 0, none⟩]
      ⟨10 ^ 30, 100, 55000, 120⟩ = .error .todoHit :=
  ⟨rfl, rfl, by decide, rfl, rfl⟩

/-- Claim C7 (amended): with a positive per-transaction fee
`f = gas_limit · gas_price · 10^9` wei, the fee gate computes
`max_tx = G / f`; when `max_tx = 0` it returns
`TransactionFeeBalanceBelowOneTransaction` carrying the per-transaction fee
(major units, truncated to `u64`) and the available balance (in gwei), never
an empty batch; and when `0 < max_tx < n` — provided `max_tx` fits the
`u16` cast, which for `max_tx ≥ 2^16` panics instead (see the
counterexample) — `search_for_indispensable_adjustment` returns the
transaction-fee-first adjustment with limit `max_tx`. -/
theorem claim_c7_fee_gate :
    (∀ (tech : FinancialAndTechDetails) (n : Nat),
      gwei_to_wei (tech.estimated_gas_limit_per_transaction *
        tech.desired_gas_price_gwei) ≠ 0 →
      tech.gas_currency_wei / gwei_to_wei (tech.estimated_gas_limit_per_transaction *
        tech.desired_gas_price_gwei) = 0 →
      tech.gas_currency_wei / 10 ^ 9 < U64_LIMIT →
      determine_transactions_count_limit_by_gas tech n =
        .ok (.error (.transactionFeeBalanceBelowOneTransaction
          ((tech.estimated_gas_limit_per_transaction *
            tech.desired_gas_price_gwei) % U64_LIMIT)
          (tech.gas_currency_wei / 10 ^ 9)))) ∧
    (∀ (tech : FinancialAndTechDetails) (qualified : List PayableAccount) (c : Nat),
      gwei_to_wei (tech.estimated_gas_limit_per_transaction *
        tech.desired_gas_price_gwei) ≠ 0 →
      tech.gas_currency_wei / gwei_to_wei (tech.estimated_gas_limit_per_transaction *
        tech.desired_gas_price_gwei) = c →
      0 < c → c < qualified.length → c < U16_LIMIT →
      determine_transactions_count_limit_by_gas tech qualified.length =
        .ok (.ok (some c)) ∧
      search_for_indispensable_adjustment qualified tech =
        .ok (.ok (some (.transactionFeeFirstLaterMaybeMasq c)))) := by
  constructor
  · intro tech n hf0 hdiv hbal
    unfold determine_transactions_count_limit_by_gas
    simp only [chkDiv, if_neg hf0]
    rw [hdiv]
    have h128 : (0 : Nat) < U128_LIMIT := by decide
    simp only [Bind.bind, Except.bind, if_pos h128, pure, Except.pure, if_pos rfl]
    unfold wei_to_gwei_u64
    rw [if_pos hbal]
    rfl
  · intro tech qualified c hf0 hdiv hpos hlt h16
    have hdet : determine_transactions_count_limit_by_gas tech qualified.length =
        .ok (.ok (some c)) := by
      unfold determine_transactions_count_limit_by_gas
      simp only [chkDiv, if_neg hf0]
      rw [hdiv]
      have h128 : c < U128_LIMIT := by
        have : U16_LIMIT < U128_LIMIT := by decide
        omega
      simp only [Bind.bind, Except.bind, if_pos h128, pure, Except.pure]
      have hne0 : ¬(c = 0) := by omega
      have hnlen : ¬(qualified.length ≤ c) := by omega
      rw [if_neg hne0, if_neg hnlen, if_pos h16]
    refine ⟨hdet, ?_⟩
    unfold search_for_indispensable_adjustment
    rw [hdet]
    rfl

/-- Claim C7 witness: at fee 1 gwei per transaction (gas limit 1, price 1):
a wallet holding `10^9 - 1` wei ( < one transaction) raises the error with
fee 1 and balance 0 gwei; a wallet holding `2·10^9` wei against three
payables yields the transaction-fee-first adjustment with limit 2. -/
theorem claim_c7_fee_gate_witness :
    determine_transactions_count_limit_by_gas ⟨10 ^ 9 - 1, 0, 1, 1⟩ 3 =
      .ok (.error (.transactionFeeBalanceBelowOneTransaction 1 0)) ∧
    search_for_indispensable_adjustment
      [⟨⟨1⟩, 5, 0, none⟩, ⟨⟨2⟩, 6, 0, none⟩, ⟨⟨3⟩, 7, 0, none⟩]
      ⟨2 * 10 ^ 9, 0, 1, 1⟩ =
      .ok (.ok (some (.transactionFeeFirstLaterMaybeMasq 2))) :=
  ⟨claim_c7_fee_gate.1 ⟨10 ^ 9 - 1, 0, 1, 1⟩ 3 (by decide) (by decide) (by decide),
    (claim_c7_fee_gate.2 ⟨2 * 10 ^ 9, 0, 1, 1⟩
      [⟨⟨1⟩, 5, 0, none⟩, ⟨⟨2⟩, 6, 0, none⟩, ⟨⟨3⟩, 7, 0, none⟩] 2
      (by decide) (by decide) (by decide) (by decide) (by decide)).2⟩

/-- Claim C7 counterexample: with `max_tx = 65536` and `n = 65537` payables
(so `0 < max_tx < n`), the fee gate does not return the
transaction-fee-first adjustment: the `u16::try_from(..).expectv` cast
panics. -/
theorem claim_c7_u16_cast_counterexample :
    (0 : Nat) < 65536 ∧ (65536 : Nat) < 65537 ∧
    (65536 * 10 ^ 9) / gwei_to_wei (1 * 1) = 65536 ∧
    determine_transactions_count_limit_by_gas ⟨65536 * 10 ^ 9, 0, 1, 1⟩ 65537 =
      .error .expectFail :=
  ⟨by decide, by decide, by decide, rfl⟩

theorem criterionOf_ok {now : Nat} {a : PayableAccount} {w : Nat}
    (h : criterionOf now a = .ok w) :
    ∃ e, elapsedSecs now a = .ok e ∧ 1 ≤ e ∧
      w = e ^ 4 / (Nat.sqrt (e - 1) + 1) +
        a.balance_wei * (Nat.log 10 a.balance_wei + 1) ^ 3 := by
  simp only [criterionOf, timeCriterion, balanceCriterion, bind_ok] at h
  obtain ⟨t, ⟨e, he, p, hp, ht⟩, s, hs, b, ⟨m, hm, hb⟩, hw⟩ := h
  obtain ⟨hdiv_ne, ht'⟩ := chkDiv_ok ht
  have hp' := chkPow_ok hp
  have hs' := chkAdd_ok hs
  have hm' := chkPow_ok hm
  have hb' := chkMul_ok hb
  have hw' := chkAdd_ok hw
  have he1 : 1 ≤ e := by
    by_contra hc
    have he0 : e = 0 := by omega
    subst he0
    exact hdiv_ne rfl
  refine ⟨e, he, he1, ?_⟩
  rw [hw', hs', hb', hm', ht', hp', ceilSqrt_eq_sqrt_pred he1, log_10_eq]
  omega

/-- Claim C6: for every payable account the criteria engine assigns weight
`elapsed⁴ / ⌈√elapsed⌉ + balance · (⌊log₁₀ balance⌋ + 1)³` (here with
`⌈√e⌉ = Nat.sqrt (e-1) + 1` and the digit count `Nat.log 10 b + 1`), all in
checked arithmetic (an overflow or a zero elapsed time is a panic, not a
wrong value — hence the `.ok` hypotheses); and `apply_criteria` returns
these weighted accounts sorted by descending weight, ties keeping insertion
order (any two entries of equal weight appearing as a sublist of the
in-order weighted list still appear in that order in the output). -/
theorem claim_c6_criteria_weights_and_sorting :
    ∀ (now : Nat) (accounts : List PayableAccount)
      (ws l : List (Nat × PayableAccount)),
      computeCriteria now accounts = .ok ws →
      apply_criteria now accounts = .ok l →
      (∀ x ∈ ws, ∃ e, elapsedSecs now x.2 = .ok e ∧ 1 ≤ e ∧
        x.1 = e ^ 4 / (Nat.sqrt (e - 1) + 1) +
          x.2.balance_wei * (Nat.log 10 x.2.balance_wei + 1) ^ 3) ∧
      l.Perm ws ∧
      l.Pairwise (fun x y => y.1 ≤ x.1) ∧
      (∀ x y, x.1 = y.1 → [x, y].Sublist ws → [x, y].Sublist l) := by
  intro now accounts ws l hws hl
  refine ⟨?_, ?_⟩
  · intro x hx
    exact criterionOf_ok ((computeCriteria_ok hws).2 x hx)
  · obtain ⟨cs, hcs, rfl⟩ := apply_criteria_ok hl
    rw [hws] at hcs
    injection hcs with hcs
    subst hcs
    exact ⟨sortDescBy_perm _ ws, sortDescBy_pairwise _ ws,
      fun x y hxy hsub => pair_sublist_sortDescBy _ hsub (le_of_eq hxy.symm)⟩

/-- Claim C6 witness: two identical debts (100 wei, 1 s old) under different
wallets get equal weights `1⁴/⌈√1⌉ + 100·3³ = 2701` and keep their insertion
order through the sort. -/
theorem claim_c6_criteria_witness :
    computeCriteria 1 [⟨⟨1⟩, 100, 0, none⟩, ⟨⟨2⟩, 100, 0, none⟩] =
      .ok [(2701, ⟨⟨1⟩, 100, 0, none⟩), (2701, ⟨⟨2⟩, 100, 0, none⟩)] ∧
    apply_criteria 1 [⟨⟨1⟩, 100, 0, none⟩, ⟨⟨2⟩, 100, 0, none⟩] =
      .ok [(2701, ⟨⟨1⟩, 100, 0, none⟩), (2701, ⟨⟨2⟩, 100, 0, none⟩)] ∧
    ((∀ x ∈ [(2701, (⟨⟨1⟩, 100, 0, none⟩ : PayableAccount)),
        (2701, ⟨⟨2⟩, 100, 0, none⟩)], ∃ e, elapsedSecs 1 x.2 = .ok e ∧ 1 ≤ e ∧
        x.1 = e ^ 4 / (Nat.sqrt (e - 1) + 1) +
          x.2.balance_wei * (Nat.log 10 x.2.balance_wei + 1) ^ 3) ∧
      ([(2701, (⟨⟨1⟩, 100, 0, none⟩ : PayableAccount)),
        (2701, ⟨⟨2⟩, 100, 0, none⟩)].Perm
        [(2701, ⟨⟨1⟩, 100, 0, none⟩), (2701, ⟨⟨2⟩, 100, 0, none⟩)]) ∧
      ([(2701, (⟨⟨1⟩, 100, 0, none⟩ : PayableAccount)),
        (2701, ⟨⟨2⟩, 100, 0, none⟩)].Pairwise (fun x y => y.1 ≤ x.1)) ∧
      (∀ x y, x.1 = y.1 →
        [x, y].Sublist [(2701, (⟨⟨1⟩, 100, 0, none⟩ : PayableAccount)),
          (2701, ⟨⟨2⟩, 100, 0, none⟩)] →
        [x, y].Sublist [(2701, (⟨⟨1⟩, 100, 0, none⟩ : PayableAccount)),
          (2701, ⟨⟨2⟩, 100, 0, none⟩)])) :=
  ⟨rfl, rfl,
    claim_c6_criteria_weights_and_sorting 1
      [⟨⟨1⟩, 100, 0, none⟩, ⟨⟨2⟩, 100, 0, none⟩]
      [(2701, ⟨⟨1⟩, 100, 0, none⟩), (2701, ⟨⟨2⟩, 100, 0, none⟩)]
      [(2701, ⟨⟨1⟩, 100, 0, none⟩), (2701, ⟨⟨2⟩, 100, 0, none⟩)] rfl rfl⟩
